import Mathlib

/-!
# Verification of the dqcsim-openql-mapper core

Shallow embedding of the qubit identity mapping and gate-translation engine:

* `QubitBiMap` — the bidirectional index map (`src/main.cpp`, lines 19–85).
* The gate catalog `OpenQLGateMap` (`src/src/gates.cpp`), on top of a model of
  the external DQCsim `GateMap` collaborator, whose matrix-matching engine is
  modelled by its contract: matrix equality within the detection tolerance ε is
  represented by a decidable equivalence on symbolic matrix values.
* The translation and batching engine `MapperPlugin` (`src/src/main.cpp`),
  with the external OpenQL routing oracle (`mapper.Map`, `v2r_out`) treated as
  a black-box parameter.

Machine integers (`size_t`, `ssize_t`) are modelled as `Nat`/`Int`; the source
uses them only as small indices, never near overflow. Lookup results use `Int`
with `-1` for "not found", exactly as the source's `ssize_t` convention.
-/

/-- A function-backed finite map standing for `std::unordered_map<size_t, size_t>`:
`none` means the key is absent. -/
def HMap : Type := Nat → Option Nat

/-- Point update of an `HMap` (models `emplace` of an absent key / `erase`). -/
def HMap.upd (f : HMap) (k : Nat) (v : Option Nat) : HMap :=
  fun x => if x = k then v else f x

/-- Empty map. -/
def HMap.empty : HMap := fun _ => none

/-- Bidirectional map between two qubit index spaces
(`QubitBiMap`, `src/main.cpp` lines 19–85). -/
structure QubitBiMap where
  forward : HMap
  reverse : HMap

/-- Freshly constructed `QubitBiMap`: both maps empty. -/
def QubitBiMap.empty : QubitBiMap := ⟨HMap.empty, HMap.empty⟩

/-- `forward_lookup`: downstream qubit for an upstream qubit, `-1` if unmapped. -/
def QubitBiMap.forward_lookup (m : QubitBiMap) (upstream : Nat) : Int :=
  match m.forward upstream with
  | some v => (v : Int)
  | none => -1

/-- `reverse_lookup`: upstream qubit for a downstream qubit, `-1` if unmapped. -/
def QubitBiMap.reverse_lookup (m : QubitBiMap) (downstream : Nat) : Int :=
  match m.reverse downstream with
  | some v => (v : Int)
  | none => -1

/-- `unmap_upstream`: remove the pairing containing the given upstream qubit,
no-op if it is unmapped. -/
def QubitBiMap.unmap_upstream (m : QubitBiMap) (upstream : Nat) : QubitBiMap :=
  match m.forward upstream with
  | some d => ⟨m.forward.upd upstream none, m.reverse.upd d none⟩
  | none => m

/-- `unmap_downstream`: remove the pairing containing the given downstream qubit,
no-op if it is unmapped. -/
def QubitBiMap.unmap_downstream (m : QubitBiMap) (downstream : Nat) : QubitBiMap :=
  match m.reverse downstream with
  | some u => ⟨m.forward.upd u none, m.reverse.upd downstream none⟩
  | none => m

/-- `map`: removes any existing pairing containing either argument, then
inserts the pairing `(upstream, downstream)`. -/
def QubitBiMap.map (m : QubitBiMap) (upstream downstream : Nat) : QubitBiMap :=
  let m1 := (m.unmap_upstream upstream).unmap_downstream downstream
  ⟨m1.forward.upd upstream (some downstream), m1.reverse.upd downstream (some upstream)⟩

/-- The bidirectional-map invariant: the two hash maps are converses. -/
def QubitBiMap.Inv (m : QubitBiMap) : Prop :=
  ∀ u d : Nat, m.forward u = some d ↔ m.reverse d = some u

theorem QubitBiMap.Inv.empty : QubitBiMap.empty.Inv := by
  intro u d
  simp [QubitBiMap.empty, HMap.empty]

theorem QubitBiMap.Inv.unmap_upstream {m : QubitBiMap} (h : m.Inv) (u : Nat) :
    (m.unmap_upstream u).Inv := by
  intro x y
  unfold QubitBiMap.unmap_upstream
  cases hf : m.forward u with
  | none => exact h x y
  | some d =>
    have hrd : m.reverse d = some u := (h u d).mp hf
    simp only [HMap.upd]
    constructor
    · intro hxy
      by_cases hx : x = u
      · simp [hx] at hxy
      · simp only [if_neg hx] at hxy
        have hrv : m.reverse y = some x := (h x y).mp hxy
        by_cases hy : y = d
        · subst hy
          rw [hrd] at hrv
          exact absurd (Option.some.inj hrv).symm hx
        · simp only [if_neg hy]
          exact hrv
    · intro hxy
      by_cases hy : y = d
      · simp [hy] at hxy
      · simp only [if_neg hy] at hxy
        have hfx : m.forward x = some y := (h x y).mpr hxy
        by_cases hx : x = u
        · rw [hx, hf] at hfx
          exact absurd (Option.some.inj hfx) (fun e => hy e.symm)
        · simp only [if_neg hx]
          exact hfx

theorem QubitBiMap.Inv.unmap_downstream {m : QubitBiMap} (h : m.Inv) (d : Nat) :
    (m.unmap_downstream d).Inv := by
  intro x y
  unfold QubitBiMap.unmap_downstream
  cases hr : m.reverse d with
  | none => exact h x y
  | some u =>
    have hfu : m.forward u = some d := (h u d).mpr hr
    simp only [HMap.upd]
    constructor
    · intro hxy
      by_cases hx : x = u
      · simp [hx] at hxy
      · simp only [if_neg hx] at hxy
        have hrv : m.reverse y = some x := (h x y).mp hxy
        by_cases hy : y = d
        · subst hy
          rw [hr] at hrv
          exact absurd (Option.some.inj hrv).symm hx
        · simp only [if_neg hy]
          exact hrv
    · intro hxy
      by_cases hy : y = d
      · simp [hy] at hxy
      · simp only [if_neg hy] at hxy
        have hfx : m.forward x = some y := (h x y).mpr hxy
        by_cases hx : x = u
        · rw [hx, hfu] at hfx
          exact absurd (Option.some.inj hfx) (fun e => hy e.symm)
        · simp only [if_neg hx]
          exact hfx

theorem QubitBiMap.forward_unmap_upstream_self (m : QubitBiMap) (u : Nat) :
    (m.unmap_upstream u).forward u = none := by
  unfold QubitBiMap.unmap_upstream
  cases hf : m.forward u with
  | none => exact hf
  | some d => simp [HMap.upd]

theorem QubitBiMap.reverse_unmap_downstream_self (m : QubitBiMap) (d : Nat) :
    (m.unmap_downstream d).reverse d = none := by
  unfold QubitBiMap.unmap_downstream
  cases hr : m.reverse d with
  | none => exact hr
  | some u => simp [HMap.upd]

theorem QubitBiMap.forward_unmap_downstream_none {m : QubitBiMap} {u : Nat}
    (h : m.forward u = none) (d : Nat) : (m.unmap_downstream d).forward u = none := by
  unfold QubitBiMap.unmap_downstream
  cases hr : m.reverse d with
  | none => exact h
  | some u' =>
    simp only [HMap.upd]
    by_cases hu : u = u' <;> simp [hu, h]

theorem QubitBiMap.Inv.map {m : QubitBiMap} (h : m.Inv) (u d : Nat) :
    (m.map u d).Inv := by
  have h1 : ((m.unmap_upstream u).unmap_downstream d).Inv :=
    (h.unmap_upstream u).unmap_downstream d
  have hfu : ((m.unmap_upstream u).unmap_downstream d).forward u = none :=
    QubitBiMap.forward_unmap_downstream_none (m.forward_unmap_upstream_self u) d
  have hrd : ((m.unmap_upstream u).unmap_downstream d).reverse d = none :=
    QubitBiMap.reverse_unmap_downstream_self _ d
  intro x y
  show (HMap.upd _ u (some d)) x = some y ↔ (HMap.upd _ d (some u)) y = some x
  simp only [HMap.upd]
  by_cases hx : x = u <;> by_cases hy : y = d
  · simp [hx, hy]
  · rw [if_pos hx, if_neg hy]
    constructor
    · intro hc
      exact absurd (Option.some.inj hc) (fun e => hy e.symm)
    · intro hc
      have hfwd := (h1 x y).mpr hc
      rw [hx, hfu] at hfwd
      cases hfwd
  · rw [if_neg hx, if_pos hy]
    constructor
    · intro hc
      have hrev := (h1 x y).mp hc
      rw [hy, hrd] at hrev
      cases hrev
    · intro hc
      exact absurd (Option.some.inj hc) (fun e => hx e.symm)
  · simp only [if_neg hx, if_neg hy]
    exact h1 x y

/-- One call against a `QubitBiMap`. -/
inductive BiMapOp
  | mapOp (u d : Nat)
  | unmapUp (u : Nat)
  | unmapDown (d : Nat)

/-- Apply one call. -/
def QubitBiMap.apply : QubitBiMap → BiMapOp → QubitBiMap
  | m, .mapOp u d => m.map u d
  | m, .unmapUp u => m.unmap_upstream u
  | m, .unmapDown d => m.unmap_downstream d

/-- State after a sequence of calls starting from a fresh map. -/
def QubitBiMap.run (ops : List BiMapOp) : QubitBiMap :=
  ops.foldl QubitBiMap.apply QubitBiMap.empty

theorem QubitBiMap.Inv.apply {m : QubitBiMap} (h : m.Inv) (op : BiMapOp) :
    (m.apply op).Inv := by
  cases op with
  | mapOp u d => exact h.map u d
  | unmapUp u => exact h.unmap_upstream u
  | unmapDown d => exact h.unmap_downstream d

theorem QubitBiMap.Inv.run (ops : List BiMapOp) : (QubitBiMap.run ops).Inv := by
  suffices H : ∀ (ops : List BiMapOp) (m : QubitBiMap), m.Inv → (ops.foldl QubitBiMap.apply m).Inv by
    exact H ops QubitBiMap.empty QubitBiMap.Inv.empty
  intro ops
  induction ops with
  | nil => intro m h; exact h
  | cons op rest ih =>
    intro m h
    exact ih (m.apply op) (h.apply op)

theorem QubitBiMap.forward_lookup_eq_iff (m : QubitBiMap) (k v : Nat) :
    m.forward_lookup k = (v : Int) ↔ m.forward k = some v := by
  unfold QubitBiMap.forward_lookup
  cases m.forward k with
  | none => simp
  | some w => simp

theorem QubitBiMap.reverse_lookup_eq_iff (m : QubitBiMap) (k v : Nat) :
    m.reverse_lookup v = (k : Int) ↔ m.reverse v = some k := by
  unfold QubitBiMap.reverse_lookup
  cases m.reverse v with
  | none => simp
  | some w => simp

/-- C2: Bidirectional Index Map invariant. For every sequence of `map`,
`unmap_upstream`, `unmap_downstream` calls on a `QubitBiMap`, at every point
`forward_lookup k = v ↔ reverse_lookup v = k`; no index appears in more than
one pairing on either side (partial injection); and mapping a key or value
that is already paired first removes the old pairing. -/
theorem C2_bimap_invariant (ops : List BiMapOp) :
    (∀ k v : Nat, (QubitBiMap.run ops).forward_lookup k = (v : Int) ↔
      (QubitBiMap.run ops).reverse_lookup v = (k : Int)) ∧
    (∀ k k' v : Nat, (QubitBiMap.run ops).forward_lookup k = (v : Int) →
      (QubitBiMap.run ops).forward_lookup k' = (v : Int) → k = k') ∧
    (∀ v v' k : Nat, (QubitBiMap.run ops).reverse_lookup v = (k : Int) →
      (QubitBiMap.run ops).reverse_lookup v' = (k : Int) → v = v') ∧
    (∀ a b : Nat,
      ((QubitBiMap.run ops).map a b).forward_lookup a = (b : Int) ∧
      ((QubitBiMap.run ops).map a b).reverse_lookup b = (a : Int) ∧
      (∀ d0 : Nat, (QubitBiMap.run ops).forward_lookup a = (d0 : Int) → d0 ≠ b →
        ((QubitBiMap.run ops).map a b).reverse_lookup d0 = -1) ∧
      (∀ a0 : Nat, (QubitBiMap.run ops).reverse_lookup b = (a0 : Int) → a0 ≠ a →
        ((QubitBiMap.run ops).map a b).forward_lookup a0 = -1)) := by
  have hinv : (QubitBiMap.run ops).Inv := QubitBiMap.Inv.run ops
  set m := QubitBiMap.run ops with hm
  have hiff : ∀ k v : Nat, m.forward_lookup k = (v : Int) ↔ m.reverse_lookup v = (k : Int) := by
    intro k v
    rw [QubitBiMap.forward_lookup_eq_iff, QubitBiMap.reverse_lookup_eq_iff]
    exact hinv k v
  refine ⟨hiff, ?_, ?_, ?_⟩
  · intro k k' v h1 h2
    have r1 := (hiff k v).mp h1
    have r2 := (hiff k' v).mp h2
    rw [QubitBiMap.reverse_lookup_eq_iff] at r1 r2
    exact Option.some.inj (r1.symm.trans r2) |>.symm ▸ rfl
  · intro v v' k h1 h2
    rw [QubitBiMap.reverse_lookup_eq_iff] at h1 h2
    have f1 := (hinv k v).mpr h1
    have f2 := (hinv k v').mpr h2
    exact Option.some.inj (f1.symm.trans f2)
  · intro a b
    have hminv : (m.map a b).Inv := hinv.map a b
    have hfa : (m.map a b).forward a = some b := by
      show (HMap.upd _ a (some b)) a = some b
      simp [HMap.upd]
    have hrb : (m.map a b).reverse b = some a := by
      show (HMap.upd _ b (some a)) b = some a
      simp [HMap.upd]
    refine ⟨(QubitBiMap.forward_lookup_eq_iff _ a b).mpr hfa,
            (QubitBiMap.reverse_lookup_eq_iff _ a b).mpr hrb, ?_, ?_⟩
    · intro d0 hlook hne
      rw [QubitBiMap.forward_lookup_eq_iff] at hlook
      -- the old partner d0 of a is unmapped on the reverse side after map a b
      unfold QubitBiMap.reverse_lookup
      cases hr : (m.map a b).reverse d0 with
      | none => rfl
      | some x =>
        exfalso
        have hfx : (m.map a b).forward x = some d0 := (hminv x d0).mpr hr
        -- forward side of map a b at x
        have : (HMap.upd ((m.unmap_upstream a).unmap_downstream b).forward a (some b)) x
            = some d0 := hfx
        simp only [HMap.upd] at this
        by_cases hx : x = a
        · rw [if_pos hx] at this
          exact hne (Option.some.inj this).symm
        · rw [if_neg hx] at this
          -- x ≠ a still maps to d0 in the intermediate map; but in m the only
          -- key mapping to d0 is a, and unmap_upstream a removed that pairing
          have hstep : ((m.unmap_upstream a).unmap_downstream b).Inv :=
            (hinv.unmap_upstream a).unmap_downstream b
          have hrev : ((m.unmap_upstream a).unmap_downstream b).reverse d0 = some x :=
            (hstep x d0).mp this
          -- compute the reverse side of the two unmaps at d0
          have hrevm : (m.unmap_upstream a).reverse d0 = none := by
            unfold QubitBiMap.unmap_upstream
            rw [hlook]
            simp [HMap.upd]
          have : ((m.unmap_upstream a).unmap_downstream b).reverse d0 = none := by
            unfold QubitBiMap.unmap_downstream
            cases hrb2 : (m.unmap_upstream a).reverse b with
            | none => exact hrevm
            | some u' =>
              simp only [HMap.upd]
              rw [if_neg (fun e => hne e)]
              exact hrevm
          rw [this] at hrev
          cases hrev
    · intro a0 hlook hne
      rw [QubitBiMap.reverse_lookup_eq_iff] at hlook
      unfold QubitBiMap.forward_lookup
      cases hf : (m.map a b).forward a0 with
      | none => rfl
      | some y =>
        exfalso
        have : (HMap.upd ((m.unmap_upstream a).unmap_downstream b).forward a (some b)) a0
            = some y := hf
        simp only [HMap.upd] at this
        rw [if_neg hne] at this
        -- a0's pairing was removed: in m, a0 ↦ b (by Inv), and unmap_downstream b
        -- erases the forward entry of the key paired with b
        have hfa0 : m.forward a0 = some b := (hinv a0 b).mpr hlook
        have hfw1 : (m.unmap_upstream a).forward a0 = some b := by
          unfold QubitBiMap.unmap_upstream
          cases hfa' : m.forward a with
          | none => exact hfa0
          | some d' =>
            simp only [HMap.upd]
            rw [if_neg hne]
            exact hfa0
        have hrev1 : (m.unmap_upstream a).reverse b = some a0 := by
          have : (m.unmap_upstream a).Inv := hinv.unmap_upstream a
          exact (this a0 b).mp hfw1
        have hgone : ((m.unmap_upstream a).unmap_downstream b).forward a0 = none := by
          unfold QubitBiMap.unmap_downstream
          rw [hrev1]
          simp [HMap.upd]
        rw [hgone] at this
        cases this

/-- Witness for C2: concrete run `[map 3 5]`, checking the round-trip lookup and
that re-mapping key 3 to 7 removes the old pairing with 5. -/
theorem C2_bimap_invariant_witness :
    (QubitBiMap.run [.mapOp 3 5]).forward_lookup 3 = (5 : Int) ∧
    ((QubitBiMap.run [.mapOp 3 5]).map 3 7).reverse_lookup 5 = -1 := by
  refine ⟨?_, ?_⟩
  · exact ((C2_bimap_invariant [.mapOp 3 5]).1 3 5).mpr (by decide)
  · exact ((C2_bimap_invariant [.mapOp 3 5]).2.2.2 3 7).2.2.1 5 (by decide) (by decide)

/-!
## Gate catalog (`src/src/gates.cpp`, `src/gates.hpp`)

The catalog sits on the external DQCsim `GateMap`. That library's
matrix-matching engine is modelled from its contract (spec section 4.2):
each registered entry owns a detector keyed on the gate's matrix/basis and
control count, matching within the tolerance ε; detectors are tried in
registration order; `construct` rebuilds the canonical gate from the entry
registered under the identifier. Matrix equality within ε is represented by a
decidable equivalence `matEquivB` on symbolic matrix values; the coincidence
of quarter/half-turn rotation matrices with the parameterized rotation family
(the reason the source registers fixed gates first) is represented by
`predAsRot`. Angles are `ℚ`, a stand-in for the `double` angle argument.
-/

/-- Rotation axes for the parameterized gate families `rx`, `ry`, `rz`. -/
inductive DAxis
  | X | Y | Z
deriving DecidableEq, Repr

/-- Pauli measurement/prep bases (`dqcs::PauliBasis`). -/
inductive DBasis
  | X | Y | Z
deriving DecidableEq, Repr

/-- The fixed predefined DQCsim gates reachable from the catalog's type table
(`src/src/gates.cpp` lines 192–242), excluding the parameterized `RX`/`RY`/`RZ`. -/
inductive PredefGate
  | I | PX | PY | PZ | H | S | S_DAG | T | T_DAG
  | RX_90 | RX_M90 | RX_180
  | RY_90 | RY_M90 | RY_180
  | RZ_90 | RZ_M90 | RZ_180
  | Phase | Swap | SqSwap
deriving DecidableEq, Repr

/-- The fixed predefined gates whose matrix coincides with a specific angle of
a parameterized rotation family: quarter, minus-quarter and half turns about
each axis. The angle is the value the library's rotation detector extracts for
that matrix (in the same abstract `ℚ` units used for `rot`). -/
def predAsRot : PredefGate → Option (DAxis × ℚ)
  | .RX_90 => some (.X, 90)
  | .RX_M90 => some (.X, -90)
  | .RX_180 => some (.X, 180)
  | .RY_90 => some (.Y, 90)
  | .RY_M90 => some (.Y, -90)
  | .RY_180 => some (.Y, 180)
  | .RZ_90 => some (.Z, 90)
  | .RZ_M90 => some (.Z, -90)
  | .RZ_180 => some (.Z, 180)
  | _ => none

/-- A complex number as a pair (re, im) of rationals, standing for the
`double`-valued complex matrix entries. -/
abbrev Cq : Type := ℚ × ℚ

/-- Symbolic value of a gate's matrix/basis, quotiented by the detection
tolerance ε: two gates with `matEquivB`-equal values are the ones the
library's detectors identify. -/
inductive MatrixVal
  | pred (g : PredefGate)
  | rot (a : DAxis) (theta : ℚ)
  | basisOf (b : DBasis)
  | custom (entries : List Cq)
deriving DecidableEq

/-- Matrix/basis equality within the detection tolerance ε (library contract):
symbolic equality, plus the identification of the special-angle rotation
matrices with the corresponding fixed predefined gates. -/
def matEquivB : MatrixVal → MatrixVal → Bool
  | .pred p, .pred q => p = q
  | .pred p, .rot a t => predAsRot p = some (a, t)
  | .rot a t, .pred p => predAsRot p = some (a, t)
  | .rot a t, .rot b u => a = b ∧ t = u
  | .basisOf b, .basisOf c => b = c
  | .custom m, .custom m' => m = m'
  | _, _ => false

/-- Content of a canonical DQCsim gate: a unitary with a number of control
qubits, a measurement, or a prep, with its matrix/basis. -/
inductive GateContent
  | unitary (m : MatrixVal) (controlled : Nat)
  | measure (m : MatrixVal)
  | prep (m : MatrixVal)
deriving DecidableEq

/-- A canonical DQCsim gate: content, ordered target qubit list, and the
embedded measurement qubit list (`gate.get_measures()`; `has_measures` is its
nonemptiness). -/
structure DqcsGate where
  content : GateContent
  qubits : List Nat
  measures : List Nat
deriving DecidableEq

/-- What one catalog registration produced inside the DQCsim gate map:
a fixed unitary (`with_unitary` with a matrix or a fixed predefined gate),
a parameterized rotation (`with_unitary` with `RX`/`RY`/`RZ`), a measurement,
or a prep. -/
inductive EntryKind
  | fixedE (m : MatrixVal) (controlled : Nat)
  | rotE (a : DAxis) (controlled : Nat)
  | measureE (m : MatrixVal)
  | prepE (m : MatrixVal)
deriving DecidableEq

/-- A registered catalog entry: OpenQL identifier plus registration kind. -/
structure Entry where
  name : String
  kind : EntryKind
deriving DecidableEq

/-- `EntryKind.isRot`: whether the entry was registered as a parameterized
rotation. -/
def EntryKind.isRot : EntryKind → Bool
  | .rotE _ _ => true
  | _ => false

/-- One entry's detector (library contract): does this entry match the gate
content, and with which parameter list. A fixed entry matches an ε-equal
matrix with the same control count and yields no parameters; a rotation entry
matches any rotation about its axis with the same control count — including
the fixed special-angle matrices — and yields the extracted angle. -/
def entryDetect : EntryKind → GateContent → Option (List ℚ)
  | .fixedE m c, .unitary m' c' =>
    if c = c' ∧ matEquivB m m' then some [] else none
  | .rotE a c, .unitary m' c' =>
    if c = c' then
      match m' with
      | .rot a' t => if a = a' then some [t] else none
      | .pred p =>
        match predAsRot p with
        | some (a', t) => if a = a' then some [t] else none
        | none => none
      | _ => none
    else none
  | .measureE m, .measure m' => if matEquivB m m' then some [] else none
  | .prepE m, .prep m' => if matEquivB m m' then some [] else none
  | _, _ => none

/-- The library gate map's `detect`: try each registered detector in
registration order, returning the first matching entry with its parameters. -/
def detectFirst : List Entry → GateContent → Option (Entry × List ℚ)
  | [], _ => none
  | e :: rest, c =>
    match entryDetect e.kind c with
    | some ps => some (e, ps)
    | none => detectFirst rest c

/-- Find the entry registered under an identifier (the library gate map is
keyed by the OpenQL name). -/
def findEntry : List Entry → String → Option Entry
  | [], _ => none
  | e :: rest, n => if e.name = n then some e else findEntry rest n

/-- The library gate map's `construct`: rebuild a canonical gate from the
entry registered under the identifier, the qubit set, and the parameter list.
A rotation entry consumes the angle parameter; a measurement gate measures
its target qubits. -/
def buildGate (e : Entry) (qubits : List Nat) (params : List ℚ) : Except String DqcsGate :=
  match e.kind with
  | .fixedE m c => .ok ⟨.unitary m c, qubits, []⟩
  | .rotE a c =>
    match params with
    | t :: _ => .ok ⟨.unitary (.rot a t) c, qubits, []⟩
    | [] => .error ("missing angle parameter")
  | .measureE m => .ok ⟨.measure m, qubits, qubits⟩
  | .prepE m => .ok ⟨.prep m, qubits, []⟩

/-- `OpenQLGateDescription` (`src/gates.hpp` lines 26–31): name, qubit index
list, angle. The `multi_qubit_parallel` flag is read by the engine
(`src/src/main.cpp` line 434); its header is not in the sources, so it is
modelled from the spec's "per-resource expansion" family marker, defaulting to
false (nothing in the available sources sets it). -/
structure OpenQLGateDescription where
  name : String
  qubits : List Nat
  angle : ℚ
  multi_qubit_parallel : Bool
deriving DecidableEq

/-- The gate catalog: the DQCsim gate map's registered entries in registration
order, and the `has_angle` identifier set (`src/gates.hpp` lines 37–48). -/
structure OpenQLGateMap where
  entries : List Entry
  has_angle : List String
deriving DecidableEq

/-- `OpenQLGateMap::detect` (`src/src/gates.cpp` lines 259–288): run the
library detection; on a match, pop the angle parameter iff the identifier is
in `has_angle`, else report angle 0; convert the qubit set in order. -/
def OpenQLGateMap.detect (gm : OpenQLGateMap) (g : DqcsGate) :
    Except String OpenQLGateDescription :=
  match detectFirst gm.entries g.content with
  | none => .error ("failed to convert an incoming gate to its OpenQL representation")
  | some (e, ps) =>
    if gm.has_angle.contains e.name then
      match ps with
      | t :: _ => .ok ⟨e.name, g.qubits, t, false⟩
      | [] => .error ("failed to pop angle argument")
    else .ok ⟨e.name, g.qubits, 0, false⟩

/-- `OpenQLGateMap::construct` (`src/src/gates.cpp` lines 295–315): push the
angle parameter iff the identifier is in `has_angle`, then build via the
library gate map; unknown identifiers fail. -/
def OpenQLGateMap.construct (gm : OpenQLGateMap) (desc : OpenQLGateDescription) :
    Except String DqcsGate :=
  let params : List ℚ := if gm.has_angle.contains desc.name then [desc.angle] else []
  match findEntry gm.entries desc.name with
  | none => .error ("failed to convert OpenQL gate " ++ desc.name)
  | some e =>
    match buildGate e desc.qubits params with
    | .ok g => .ok g
    | .error msg => .error ("failed to convert OpenQL gate " ++ desc.name ++ ": " ++ msg)

/-!
## Catalog construction (`OpenQLGateMap::initialize` / `add_mapping`)
-/

/-- Complex squared modulus of a matrix entry (`std::norm`). -/
def cNormSq (z : Cq) : ℚ := z.1 * z.1 + z.2 * z.2

/-- Complex conjugate. -/
def cConj (z : Cq) : Cq := (z.1, -z.2)

/-- Complex multiplication. -/
def cMul (x y : Cq) : Cq := (x.1 * y.1 - x.2 * y.2, x.1 * y.2 + x.2 * y.1)

/-- Complex addition. -/
def cAdd (x y : Cq) : Cq := (x.1 + y.1, x.2 + y.2)

/-- Entry of a flattened row-major matrix, 0 outside the list (the source
never reads out of bounds when the size check passed). -/
def mEntry (entries : List Cq) (dim row col : Nat) : Cq :=
  entries.getD (row * dim + col) ((0 : ℚ), (0 : ℚ))

/-- Squared norm of one column (`norm` accumulated over rows,
`src/src/gates.cpp` lines 131–135). -/
def colNormSq (entries : List Cq) (dim col : Nat) : ℚ :=
  ((List.range dim).map (fun row => cNormSq (mEntry entries dim row col))).sum

/-- Hermitian inner product of two columns. -/
def colInner (entries : List Cq) (dim i j : Nat) : Cq :=
  ((List.range dim).map
    (fun row => cMul (cConj (mEntry entries dim row i)) (mEntry entries dim row j))).foldl
      cAdd ((0 : ℚ), (0 : ℚ))

/-- Size loop of `add_mapping` (`src/src/gates.cpp` lines 117–128): the entry
count must be `4^n`; returns `(nq, dim)` on success. -/
def findDim (len : Nat) : Option (Nat × Nat) :=
  go len 1 0 len
where
  /-- Fuel-driven transcription of the `while (len > 1)` loop; the fuel starts
  at the initial length, which bounds the iteration count. -/
  go : Nat → Nat → Nat → Nat → Option (Nat × Nat)
    | l, dim, nq, fuel =>
      if l ≤ 1 then some (nq, dim)
      else
        match fuel with
        | 0 => none
        | fuel' + 1 =>
          if l % 4 ≠ 0 then none
          else go (l / 4) (dim * 2) (nq + 1) fuel'

/-- Modelled from the spec and the library contract: the source normalizes
each column by `1/sqrt(norm)` (`src/src/gates.cpp` lines 130–140) and then
calls the external `dqcs::Matrix::approx_unitary` with tolerance ε. Expressed
on the unnormalized rational entries: every column must have nonzero norm
(a zero-norm column yields `inf`/`NaN` entries in the source, and every IEEE
comparison with `NaN` is false, so `approx_unitary` rejects), and after exact
normalization the diagonal inner products are exactly 1, so what remains is
that each off-diagonal inner product is at most ε in modulus — stated with
squares to stay inside `ℚ`. -/
def approxUnitaryNorm (entries : List Cq) (dim : Nat) (eps : ℚ) : Bool :=
  decide (∀ c ∈ List.range dim, colNormSq entries dim c ≠ 0) &&
  decide (∀ i ∈ List.range dim, ∀ j ∈ List.range dim, i ≠ j →
    cNormSq (colInner entries dim i j) ≤
      eps * eps * (colNormSq entries dim i * colNormSq entries dim j))

/-- One record of the gate map JSON description, after JSON parsing: either
the shorthand string notation or the explicit object notation. -/
inductive GateJson
  | str (s : String)
  | obj (type : String) (matrix : Option (List Cq)) (basis : Option String)
      (controlled : Option Nat)

/-- ASCII lowercase of one character (`std::tolower` as used by the source's
`lowercase` helper, `src/src/gates.cpp` lines 10–16). -/
def lowerChar (c : Char) : Char :=
  if 'A' ≤ c ∧ c ≤ 'Z' then Char.ofNat (c.toNat + 32) else c

/-- The source's `lowercase` helper: lowercase every character. -/
def lowercase (s : String) : String := String.mk (s.data.map lowerChar)

/-- The `while (typ.rfind("c-", 0) == 0)` desugaring loop: strip leading
`c-` markers, counting them. -/
def stripControls : List Char → List Char × Nat
  | 'c' :: '-' :: rest =>
    let r := stripControls rest
    (r.1, r.2 + 1)
  | cs => (cs, 0)

/-- A desugared record: identifier, lowercased type, and the optional
matrix / basis / controlled fields. -/
structure DesugaredRec where
  name : String
  typ : String
  matrix : Option (List Cq)
  basis : Option String
  controlled : Option Nat

/-- Desugaring performed by the gathering loop of `initialize`
(`src/src/gates.cpp` lines 33–68): shorthand strings are lowercased, control
markers are stripped and counted; object records have their type lowercased. -/
def desugarRecord (name : String) (j : GateJson) : DesugaredRec :=
  match j with
  | .str s =>
    let r := stripControls (lowercase s).data
    { name := name, typ := String.mk r.1, matrix := none, basis := none,
      controlled := some r.2 }
  | .obj t m b c =>
    { name := name, typ := lowercase t, matrix := m, basis := b, controlled := c }

/-- Whether a (lowercased) type is one of the parameterized families
`rx`, `ry`, `rz`. -/
def isParamTyp (t : String) : Bool := t = "rx" || t = "ry" || t = "rz"

/-- The fixed predefined gate table of `add_mapping`
(`src/src/gates.cpp` lines 191–242), transcribing the sequential
`if typ == ... else if ...` chain as a first-match lookup over the same
(distinct) keys: `inl` is a fixed gate, `inr` a parameterized rotation axis
(`RX`/`RY`/`RZ`). -/
def predefTable : List (String × (PredefGate ⊕ DAxis)) :=
  [("i", .inl .I), ("x", .inl .PX), ("y", .inl .PY), ("z", .inl .PZ),
   ("h", .inl .H), ("s", .inl .S), ("s_dag", .inl .S_DAG),
   ("t", .inl .T), ("t_dag", .inl .T_DAG),
   ("rx_90", .inl .RX_90), ("rx_m90", .inl .RX_M90), ("rx_180", .inl .RX_180),
   ("rx", .inr .X),
   ("ry_90", .inl .RY_90), ("ry_m90", .inl .RY_M90), ("ry_180", .inl .RY_180),
   ("ry", .inr .Y),
   ("rz_90", .inl .RZ_90), ("rz_m90", .inl .RZ_M90), ("rz_180", .inl .RZ_180),
   ("rz", .inr .Z),
   ("phase", .inl .Phase), ("swap", .inl .Swap), ("sqswap", .inl .SqSwap)]

/-- First-match lookup in the predefined gate table. -/
def predefLookup (typ : String) : Option (PredefGate ⊕ DAxis) :=
  (predefTable.find? (fun p => p.1 = typ)).map (fun p => p.2)

/-- Matrix/basis parsing of `add_mapping` (`src/src/gates.cpp` lines 96–159):
an explicit matrix is size-checked and validated (normalization plus unitarity
within ε); otherwise an explicit basis selects a Pauli basis, rejecting
unknown names; the default is the Z basis. -/
def parseMatrixVal (r : DesugaredRec) (eps : ℚ) : Except String MatrixVal :=
  match r.matrix with
  | some entries =>
    match findDim entries.length with
    | none => .error ("\"matrix\" has invalid size")
    | some d =>
      if approxUnitaryNorm entries d.2 eps then .ok (.custom entries)
      else .error ("\"matrix\" is not unitary")
  | none =>
    match r.basis with
    | some b =>
      let b' := lowercase b
      if b' = "x" then .ok (.basisOf .X)
      else if b' = "y" then .ok (.basisOf .Y)
      else if b' ≠ "z" then .error ("unknown basis " ++ b')
      else .ok (.basisOf .Z)
    | none => .ok (.basisOf .Z)

/-- `OpenQLGateMap::add_mapping` (`src/src/gates.cpp` lines 86–251): parse the
matrix/basis, then register a measurement, prep, custom unitary, or predefined
gate entry; all errors are wrapped with the offending identifier. -/
def add_mapping (r : DesugaredRec) (eps : ℚ) : Except String Entry :=
  let core : Except String Entry :=
    match parseMatrixVal r eps with
    | .error msg => .error msg
    | .ok matrix =>
      if r.typ = "measure" then .ok ⟨r.name, .measureE matrix⟩
      else if r.typ = "prep" then .ok ⟨r.name, .prepE matrix⟩
      else
        let controlled := r.controlled.getD 0
        if r.typ = "unitary" then .ok ⟨r.name, .fixedE matrix controlled⟩
        else
          match predefLookup r.typ with
          | some (.inl g) => .ok ⟨r.name, .fixedE (.pred g) controlled⟩
          | some (.inr a) => .ok ⟨r.name, .rotE a controlled⟩
          | none => .error ("unknown gate type " ++ r.typ)
  match core with
  | .ok e => .ok e
  | .error msg =>
    .error ("while parsing gatemap entry for " ++ r.name ++ ": " ++ msg)

/-- First registration pass of `initialize`: add all fixed (non-parameterized)
records to the gate map, in order (`src/src/gates.cpp` lines 71–73). -/
def registerFixed (eps : ℚ) : List DesugaredRec → OpenQLGateMap →
    Except String OpenQLGateMap
  | [], gm => .ok gm
  | r :: rest, gm =>
    match add_mapping r eps with
    | .ok e => registerFixed eps rest { gm with entries := gm.entries ++ [e] }
    | .error msg => .error msg

/-- Second registration pass of `initialize`: insert each parameterized
record's identifier into `has_angle`, then add it to the gate map, in order
(`src/src/gates.cpp` lines 76–79). -/
def registerParam (eps : ℚ) : List DesugaredRec → OpenQLGateMap →
    Except String OpenQLGateMap
  | [], gm => .ok gm
  | r :: rest, gm =>
    match add_mapping r eps with
    | .ok e => registerParam eps rest
        { entries := gm.entries ++ [e], has_angle := gm.has_angle ++ [r.name] }
    | .error msg => .error msg

/-- `OpenQLGateMap::initialize` (`src/src/gates.cpp` lines 21–81): desugar
every record, split into fixed and parameterized (`rx`/`ry`/`rz`), then
register all fixed gates followed by all parameterized gates. -/
def initGateMap (json : List (String × GateJson)) (eps : ℚ) :
    Except String OpenQLGateMap :=
  let recs := json.map (fun p => desugarRecord p.1 p.2)
  let fixed := recs.filter (fun r => !isParamTyp r.typ)
  let parameterized := recs.filter (fun r => isParamTyp r.typ)
  match registerFixed eps fixed ⟨[], []⟩ with
  | .ok gm => registerParam eps parameterized gm
  | .error msg => .error msg

/-!
## Catalog theorems
-/

/-- Behavioral equivalence of gate contents: same matrix/basis within the
detection tolerance and same control count. -/
def contentEquivB : GateContent → GateContent → Bool
  | .unitary m c, .unitary m' c' => matEquivB m m' && c == c'
  | .measure m, .measure m' => matEquivB m m'
  | .prep m, .prep m' => matEquivB m m'
  | _, _ => false

instance {e a : Type} [DecidableEq e] [DecidableEq a] : DecidableEq (Except e a) :=
  fun x y =>
  match x, y with
  | .ok v, .ok w =>
    if h : v = w then .isTrue (by rw [h]) else .isFalse (by intro hc; cases hc; exact h rfl)
  | .error v, .error w =>
    if h : v = w then .isTrue (by rw [h]) else .isFalse (by intro hc; cases hc; exact h rfl)
  | .ok _, .error _ => .isFalse (by intro hc; cases hc)
  | .error _, .ok _ => .isFalse (by intro hc; cases hc)

/-- C10: for every identifier not in the catalog's has-angle set, the angle is
inert at the public interface: `detect` returns a descriptor whose angle is
exactly 0, and `construct` is angle-insensitive — two descriptors with the
same such identifier and qubit list that differ only in the angle construct
the same canonical gate. -/
theorem C10_angle_inert (gm : OpenQLGateMap) (g : DqcsGate)
    (desc d1 d2 : OpenQLGateDescription)
    (hdet : gm.detect g = .ok desc)
    (hna : gm.has_angle.contains desc.name = false)
    (hn : d1.name = d2.name) (hq : d1.qubits = d2.qubits)
    (hnb : gm.has_angle.contains d1.name = false) :
    desc.angle = 0 ∧ gm.construct d1 = gm.construct d2 := by
  constructor
  · unfold OpenQLGateMap.detect at hdet
    cases hfind : detectFirst gm.entries g.content with
    | none => rw [hfind] at hdet; cases hdet
    | some ep =>
      obtain ⟨e, ps⟩ := ep
      rw [hfind] at hdet
      dsimp only at hdet
      by_cases hc : gm.has_angle.contains e.name = true
      · rw [if_pos hc] at hdet
        cases ps with
        | nil => cases hdet
        | cons t rest =>
          cases hdet
          exfalso
          have hmem : e.name ∈ gm.has_angle := by simpa using hc
          have hnmem : e.name ∉ gm.has_angle := by simpa using hna
          exact hnmem hmem
      · rw [if_neg hc] at hdet
        cases hdet
        rfl
  · have hnb2 : gm.has_angle.contains d2.name = false := hn ▸ hnb
    unfold OpenQLGateMap.construct
    rw [hn, hq, hnb2]
    simp

/-- Witness for C10 at a one-entry catalog holding a fixed Pauli-X gate. -/
theorem C10_angle_inert_witness :
    (⟨"x", [1], (0 : ℚ), false⟩ : OpenQLGateDescription).angle = 0 ∧
    OpenQLGateMap.construct ⟨[⟨"x", .fixedE (.pred .PX) 0⟩], []⟩ ⟨"x", [2], 5, false⟩ =
      OpenQLGateMap.construct ⟨[⟨"x", .fixedE (.pred .PX) 0⟩], []⟩ ⟨"x", [2], -3, false⟩ :=
  C10_angle_inert ⟨[⟨"x", .fixedE (.pred .PX) 0⟩], []⟩
    ⟨.unitary (.pred .PX) 0, [1], []⟩
    ⟨"x", [1], 0, false⟩ ⟨"x", [2], 5, false⟩ ⟨"x", [2], -3, false⟩
    (by decide) (by decide) (by decide) (by decide) (by decide)

/-- C8: matrix validation at catalog construction. For an explicit-matrix
entry whose size check passes, the combined column-normalization/unitarity
validation rejects the entry exactly when some column has zero norm or the
normalized matrix is off from unitary by more than ε, and rejection surfaces
as a descriptive error naming the offending identifier; entries passing the
validation are accepted. -/
theorem C8_matrix_validation (r : DesugaredRec) (eps : ℚ) (entries : List Cq)
    (nq dim : Nat)
    (hm : r.matrix = some entries)
    (hd : findDim entries.length = some (nq, dim)) :
    (approxUnitaryNorm entries dim eps = false →
      add_mapping r eps = .error
        ("while parsing gatemap entry for " ++ r.name ++ ": " ++ "\"matrix\" is not unitary")) ∧
    (approxUnitaryNorm entries dim eps = true →
      parseMatrixVal r eps = .ok (.custom entries)) ∧
    (approxUnitaryNorm entries dim eps = false ↔
      ((∃ c < dim, colNormSq entries dim c = 0) ∨
       (∃ i < dim, ∃ j < dim, i ≠ j ∧
         eps * eps * (colNormSq entries dim i * colNormSq entries dim j) <
           cNormSq (colInner entries dim i j)))) := by
  refine ⟨?_, ?_, ?_⟩
  · intro hfail
    have hp : parseMatrixVal r eps = .error ("\"matrix\" is not unitary") := by
      unfold parseMatrixVal
      rw [hm]
      dsimp only
      rw [hd]
      dsimp only
      rw [hfail]
      simp
    unfold add_mapping
    rw [hp]
  · intro hok
    unfold parseMatrixVal
    rw [hm]
    dsimp only
    rw [hd]
    dsimp only
    rw [hok]
    simp
  · unfold approxUnitaryNorm
    constructor
    · intro hfail
      rcases Bool.and_eq_false_iff.mp hfail with h1 | h2
      · left
        have h' := of_decide_eq_false h1
        push_neg at h'
        obtain ⟨c, hc, hz⟩ := h'
        exact ⟨c, List.mem_range.mp hc, hz⟩
      · right
        have h' := of_decide_eq_false h2
        push_neg at h'
        obtain ⟨i, hi, j, hj, hne, hlt⟩ := h'
        exact ⟨i, List.mem_range.mp hi, j, List.mem_range.mp hj, hne, hlt⟩
    · intro hcase
      apply Bool.and_eq_false_iff.mpr
      rcases hcase with ⟨c, hc, hz⟩ | ⟨i, hi, j, hj, hne, hlt⟩
      · left
        apply decide_eq_false
        push_neg
        exact ⟨c, List.mem_range.mpr hc, hz⟩
      · right
        apply decide_eq_false
        push_neg
        exact ⟨i, List.mem_range.mpr hi, j, List.mem_range.mpr hj, hne, hlt⟩

/-- Witness for C8: the 1×1 zero matrix (a zero-norm column) is rejected with
the error naming the entry, and zero is characterized as the failing column. -/
theorem C8_matrix_validation_witness :
    add_mapping ⟨"bad", "unitary", some [((0 : ℚ), (0 : ℚ))], none, none⟩ 1 =
      .error ("while parsing gatemap entry for bad: \"matrix\" is not unitary") ∧
    ((∃ c < 1, colNormSq [((0 : ℚ), (0 : ℚ))] 1 c = 0) ∨
     (∃ i < 1, ∃ j < 1, i ≠ j ∧
       (1 : ℚ) * 1 * (colNormSq [((0 : ℚ), (0 : ℚ))] 1 i * colNormSq [((0 : ℚ), (0 : ℚ))] 1 j) <
         cNormSq (colInner [((0 : ℚ), (0 : ℚ))] 1 i j))) := by
  have hfail : approxUnitaryNorm [((0 : ℚ), (0 : ℚ))] 1 1 = false := by
    unfold approxUnitaryNorm
    apply Bool.and_eq_false_iff.mpr
    left
    apply decide_eq_false
    push_neg
    exact ⟨0, by simp, by simp [colNormSq, mEntry, cNormSq]⟩
  have h := C8_matrix_validation ⟨"bad", "unitary", some [((0 : ℚ), (0 : ℚ))], none, none⟩ 1
    [((0 : ℚ), (0 : ℚ))] 0 1 (by rfl) (by decide)
  exact ⟨h.1 hfail, h.2.2.mp hfail⟩

theorem add_mapping_name {r : DesugaredRec} {eps : ℚ} {e : Entry}
    (h : add_mapping r eps = .ok e) : e.name = r.name := by
  unfold add_mapping at h
  cases hp : parseMatrixVal r eps with
  | error msg => rw [hp] at h; cases h
  | ok matrix =>
    rw [hp] at h
    dsimp only at h
    split_ifs at h with h1 h2 h3
    · cases h; rfl
    · cases h; rfl
    · cases h; rfl
    · cases hl : predefLookup r.typ with
      | none => rw [hl] at h; cases h
      | some v =>
        rw [hl] at h
        cases v with
        | inl g => cases h; rfl
        | inr a => cases h; rfl

theorem predefLookup_inl {typ : String} {g : PredefGate}
    (h : predefLookup typ = some (.inl g)) : isParamTyp typ = false := by
  unfold predefLookup at h
  cases hf : predefTable.find? (fun p => p.1 = typ) with
  | none => rw [hf] at h; cases h
  | some p =>
    rw [hf] at h
    have hmem := List.mem_of_find?_eq_some hf
    have hkey := List.find?_some hf
    have hsnd : p.2 = Sum.inl g := by simpa using h
    have htyp : p.1 = typ := by simpa using hkey
    subst htyp
    simp only [predefTable, List.mem_cons, List.not_mem_nil, or_false] at hmem
    rcases hmem with h|h|h|h|h|h|h|h|h|h|h|h|h|h|h|h|h|h|h|h|h|h|h|h <;>
      subst h <;> simp_all [isParamTyp]

theorem predefLookup_inr {typ : String} {a : DAxis}
    (h : predefLookup typ = some (.inr a)) : isParamTyp typ = true := by
  unfold predefLookup at h
  cases hf : predefTable.find? (fun p => p.1 = typ) with
  | none => rw [hf] at h; cases h
  | some p =>
    rw [hf] at h
    have hmem := List.mem_of_find?_eq_some hf
    have hkey := List.find?_some hf
    have hsnd : p.2 = Sum.inr a := by simpa using h
    have htyp : p.1 = typ := by simpa using hkey
    subst htyp
    simp only [predefTable, List.mem_cons, List.not_mem_nil, or_false] at hmem
    rcases hmem with h|h|h|h|h|h|h|h|h|h|h|h|h|h|h|h|h|h|h|h|h|h|h|h <;>
      subst h <;> simp_all [isParamTyp]


theorem add_mapping_isRot {r : DesugaredRec} {eps : ℚ} {e : Entry}
    (h : add_mapping r eps = .ok e) : e.kind.isRot = isParamTyp r.typ := by
  unfold add_mapping at h
  cases hp : parseMatrixVal r eps with
  | error msg => rw [hp] at h; cases h
  | ok matrix =>
    rw [hp] at h
    dsimp only at h
    split_ifs at h with h1 h2 h3
    · cases h; rw [h1]; rfl
    · cases h; rw [h2]; rfl
    · cases h; rw [h3]; rfl
    · cases hl : predefLookup r.typ with
      | none => rw [hl] at h; cases h
      | some v =>
        rw [hl] at h
        cases v with
        | inl g =>
          cases h
          rw [predefLookup_inl hl]
          rfl
        | inr a =>
          cases h
          rw [predefLookup_inr hl]
          rfl

theorem forall2_right_mem {α β : Type} {R : α → β → Prop} :
    ∀ {l1 : List α} {l2 : List β}, List.Forall₂ R l1 l2 →
      ∀ b ∈ l2, ∃ a ∈ l1, R a b := by
  intro l1 l2 h
  induction h with
  | nil => intro b hb; cases hb
  | cons hr _ ih =>
    intro b hb
    cases hb with
    | head => exact ⟨_, List.mem_cons_self _ _, hr⟩
    | tail _ hb' =>
      obtain ⟨a, ha, har⟩ := ih b hb'
      exact ⟨a, List.mem_cons_of_mem _ ha, har⟩

theorem forall2_map_eq {α β : Type} {R : α → β → Prop} {f : α → String} {g : β → String}
    (hf : ∀ a b, R a b → g b = f a) :
    ∀ {l1 : List α} {l2 : List β}, List.Forall₂ R l1 l2 →
      l2.map g = l1.map f := by
  intro l1 l2 h
  induction h with
  | nil => rfl
  | cons hr _ ih => simp [ih, hf _ _ hr]

theorem registerFixed_spec (eps : ℚ) :
    ∀ (rs : List DesugaredRec) (gm gm' : OpenQLGateMap),
      registerFixed eps rs gm = .ok gm' →
      gm'.has_angle = gm.has_angle ∧
      ∃ es, gm'.entries = gm.entries ++ es ∧
        List.Forall₂ (fun r e => add_mapping r eps = .ok e) rs es := by
  intro rs
  induction rs with
  | nil =>
    intro gm gm' h
    cases h
    exact ⟨rfl, [], by simp, List.Forall₂.nil⟩
  | cons r rest ih =>
    intro gm gm' h
    unfold registerFixed at h
    cases ha : add_mapping r eps with
    | error msg => rw [ha] at h; cases h
    | ok e =>
      rw [ha] at h
      obtain ⟨hang, es, hent, hrel⟩ := ih _ _ h
      refine ⟨hang, e :: es, ?_, List.Forall₂.cons ha hrel⟩
      rw [hent]
      simp

theorem registerParam_spec (eps : ℚ) :
    ∀ (rs : List DesugaredRec) (gm gm' : OpenQLGateMap),
      registerParam eps rs gm = .ok gm' →
      gm'.has_angle = gm.has_angle ++ rs.map (fun r => r.name) ∧
      ∃ es, gm'.entries = gm.entries ++ es ∧
        List.Forall₂ (fun r e => add_mapping r eps = .ok e) rs es := by
  intro rs
  induction rs with
  | nil =>
    intro gm gm' h
    cases h
    exact ⟨by simp, [], by simp, List.Forall₂.nil⟩
  | cons r rest ih =>
    intro gm gm' h
    unfold registerParam at h
    cases ha : add_mapping r eps with
    | error msg => rw [ha] at h; cases h
    | ok e =>
      rw [ha] at h
      obtain ⟨hang, es, hent, hrel⟩ := ih _ _ h
      refine ⟨?_, e :: es, ?_, List.Forall₂.cons ha hrel⟩
      · rw [hang]; simp
      · rw [hent]; simp

/-- Records obtained by desugaring the JSON description. -/
def desugaredOf (json : List (String × GateJson)) : List DesugaredRec :=
  json.map (fun p => desugarRecord p.1 p.2)

theorem initGateMap_spec {json : List (String × GateJson)} {eps : ℚ}
    {gm : OpenQLGateMap} (h : initGateMap json eps = .ok gm) :
    gm.has_angle =
      ((desugaredOf json).filter (fun r => isParamTyp r.typ)).map (fun r => r.name) ∧
    ∃ fe pe, gm.entries = fe ++ pe ∧
      List.Forall₂ (fun r e => add_mapping r eps = .ok e)
        ((desugaredOf json).filter (fun r => !isParamTyp r.typ)) fe ∧
      List.Forall₂ (fun r e => add_mapping r eps = .ok e)
        ((desugaredOf json).filter (fun r => isParamTyp r.typ)) pe := by
  unfold desugaredOf
  unfold initGateMap at h
  dsimp only at h
  cases h1 : registerFixed eps
      ((json.map (fun p => desugarRecord p.1 p.2)).filter (fun r => !isParamTyp r.typ))
      ⟨[], []⟩ with
  | error msg => rw [h1] at h; cases h
  | ok gm1 =>
    rw [h1] at h
    obtain ⟨hang1, fe, hent1, hrel1⟩ := registerFixed_spec eps _ _ _ h1
    obtain ⟨hang2, pe, hent2, hrel2⟩ := registerParam_spec eps _ _ _ h
    simp only at hent1
    refine ⟨?_, fe, pe, ?_, hrel1, hrel2⟩
    · rw [hang2, hang1]
      simp
    · rw [hent2, hent1]
      simp

/-- C7: two-pass catalog construction. Exactly the records whose desugared
type is `rx`, `ry`, or `rz` populate the catalog's has-angle set, and the
registered entry list splits into a first block of fixed (non-rotation)
registrations followed by a second block consisting exactly of the
parameterized rotation registrations — the passes never interleave. -/
theorem C7_two_pass_construction (json : List (String × GateJson)) (eps : ℚ)
    (gm : OpenQLGateMap) (h : initGateMap json eps = .ok gm) :
    gm.has_angle =
      ((desugaredOf json).filter (fun r => isParamTyp r.typ)).map (fun r => r.name) ∧
    ∃ fe pe, gm.entries = fe ++ pe ∧
      (∀ e ∈ fe, e.kind.isRot = false) ∧
      (∀ e ∈ pe, e.kind.isRot = true) ∧
      pe.map (fun e => e.name) = gm.has_angle := by
  obtain ⟨hang, fe, pe, hent, hrel1, hrel2⟩ := initGateMap_spec h
  refine ⟨hang, fe, pe, hent, ?_, ?_, ?_⟩
  · intro e he
    obtain ⟨r, hr, hok⟩ := forall2_right_mem hrel1 e he
    have hp := List.of_mem_filter hr
    rw [add_mapping_isRot hok]
    simpa using hp
  · intro e he
    obtain ⟨r, hr, hok⟩ := forall2_right_mem hrel2 e he
    have hp := List.of_mem_filter hr
    rw [add_mapping_isRot hok]
    simpa using hp
  · rw [hang]
    exact forall2_map_eq (fun r e hok => add_mapping_name hok) hrel2

/-- A small concrete gate map description: two fixed gates, one measurement,
one parameterized rotation. -/
def sampleJson : List (String × GateJson) :=
  [("x", .str "x"), ("cnot", .str "C-X"), ("rx", .str "rx"),
   ("meas", .obj "measure" none none none)]

/-- The catalog built from `sampleJson`. -/
def sampleGM : OpenQLGateMap :=
  ⟨[⟨"x", .fixedE (.pred .PX) 0⟩, ⟨"cnot", .fixedE (.pred .PX) 1⟩,
    ⟨"meas", .measureE (.basisOf .Z)⟩, ⟨"rx", .rotE .X 0⟩], ["rx"]⟩

/-- Witness for C7 on `sampleJson`: the lone `rx` record lands in `has_angle`
and the registered entries split into the fixed block and the rotation block. -/
theorem C7_two_pass_construction_witness :
    sampleGM.has_angle =
      ((desugaredOf sampleJson).filter (fun r => isParamTyp r.typ)).map (fun r => r.name) ∧
    ∃ fe pe, sampleGM.entries = fe ++ pe ∧
      (∀ e ∈ fe, e.kind.isRot = false) ∧
      (∀ e ∈ pe, e.kind.isRot = true) ∧
      pe.map (fun e => e.name) = sampleGM.has_angle :=
  C7_two_pass_construction sampleJson 1 sampleGM (by decide)

theorem detectFirst_mem {entries : List Entry} {c : GateContent} {e : Entry} {ps : List ℚ}
    (h : detectFirst entries c = some (e, ps)) :
    e ∈ entries ∧ entryDetect e.kind c = some ps := by
  induction entries with
  | nil => cases h
  | cons e0 rest ih =>
    unfold detectFirst at h
    cases hd : entryDetect e0.kind c with
    | some ps0 =>
      rw [hd] at h
      obtain ⟨he, hps⟩ := Prod.mk.injEq .. ▸ Option.some.inj h
      subst he
      subst hps
      exact ⟨List.mem_cons_self _ _, hd⟩
    | none =>
      rw [hd] at h
      obtain ⟨hmem, hdet⟩ := ih h
      exact ⟨List.mem_cons_of_mem _ hmem, hdet⟩

theorem findEntry_of_nodup {entries : List Entry} {e : Entry}
    (hn : (entries.map (fun x => x.name)).Nodup) (he : e ∈ entries) :
    findEntry entries e.name = some e := by
  induction entries with
  | nil => cases he
  | cons e0 rest ih =>
    unfold findEntry
    cases he with
    | head => simp
    | tail _ hmem =>
      by_cases hname : e0.name = e.name
      · exfalso
        simp only [List.map_cons, List.nodup_cons] at hn
        exact hn.1 (hname ▸ List.mem_map_of_mem (fun x => x.name) hmem)
      · rw [if_neg hname]
        exact ih (by simp only [List.map_cons, List.nodup_cons] at hn; exact hn.2) hmem

theorem desugaredOf_names (json : List (String × GateJson)) :
    (desugaredOf json).map (fun r => r.name) = json.map Prod.fst := by
  unfold desugaredOf
  induction json with
  | nil => rfl
  | cons p rest ih =>
    simp only [List.map_cons, ih]
    congr 1
    cases p.2 <;> rfl

/-- Core consistency facts of a successfully built catalog with distinct
identifiers: entry names are distinct, and an entry is a parameterized
rotation exactly when its identifier is in `has_angle`. -/
theorem initGateMap_consistency {json : List (String × GateJson)} {eps : ℚ}
    {gm : OpenQLGateMap}
    (hnd : (json.map Prod.fst).Nodup)
    (h : initGateMap json eps = .ok gm) :
    (gm.entries.map (fun x => x.name)).Nodup ∧
    (∀ e ∈ gm.entries, (e.kind.isRot = true ↔ e.name ∈ gm.has_angle)) := by
  obtain ⟨hang, fe, pe, hent, hrel1, hrel2⟩ := initGateMap_spec h
  have hrecnames : (desugaredOf json).map (fun r => r.name) = json.map Prod.fst :=
    desugaredOf_names json
  have hrnd : ((desugaredOf json).map (fun r => r.name)).Nodup := by
    rw [hrecnames]; exact hnd
  have hinj := List.inj_on_of_nodup_map hrnd
  have hfe_names : fe.map (fun x => x.name) =
      ((desugaredOf json).filter (fun r => !isParamTyp r.typ)).map (fun r => r.name) :=
    forall2_map_eq (fun r e hok => add_mapping_name hok) hrel1
  have hpe_names : pe.map (fun x => x.name) =
      ((desugaredOf json).filter (fun r => isParamTyp r.typ)).map (fun r => r.name) :=
    forall2_map_eq (fun r e hok => add_mapping_name hok) hrel2
  have hsub1 : List.Sublist
      (((desugaredOf json).filter (fun r => !isParamTyp r.typ)).map (fun r => r.name))
      ((desugaredOf json).map (fun r => r.name)) :=
    (List.filter_sublist _).map _
  have hsub2 : List.Sublist
      (((desugaredOf json).filter (fun r => isParamTyp r.typ)).map (fun r => r.name))
      ((desugaredOf json).map (fun r => r.name)) :=
    (List.filter_sublist _).map _
  have hdisj : List.Disjoint
      (((desugaredOf json).filter (fun r => !isParamTyp r.typ)).map (fun r => r.name))
      (((desugaredOf json).filter (fun r => isParamTyp r.typ)).map (fun r => r.name)) := by
    intro n hn1 hn2
    obtain ⟨r1, hr1, hn1'⟩ := List.mem_map.mp hn1
    obtain ⟨r2, hr2, hn2'⟩ := List.mem_map.mp hn2
    have hm1 := List.mem_of_mem_filter hr1
    have hm2 := List.mem_of_mem_filter hr2
    have h12 : r1 = r2 := hinj hm1 hm2 (by rw [hn1', hn2'])
    have hp1 := List.of_mem_filter hr1
    have hp2 := List.of_mem_filter hr2
    rw [h12] at hp1
    simp only [Bool.not_eq_true'] at hp1
    rw [hp2] at hp1
    cases hp1
  constructor
  · rw [hent, List.map_append, hfe_names, hpe_names]
    exact List.Nodup.append (hsub1.nodup hrnd) (hsub2.nodup hrnd) hdisj
  · intro e he
    rw [hent] at he
    rcases List.mem_append.mp he with hfe | hpe
    · obtain ⟨r, hr, hok⟩ := forall2_right_mem hrel1 e hfe
      have hrot : e.kind.isRot = false := by
        rw [add_mapping_isRot hok]
        simpa using List.of_mem_filter hr
      constructor
      · intro hcontra; rw [hrot] at hcontra; cases hcontra
      · intro hmem
        exfalso
        rw [hang] at hmem
        have hnin : e.name ∈
            ((desugaredOf json).filter (fun r => !isParamTyp r.typ)).map (fun r => r.name) := by
          rw [← hfe_names]
          exact List.mem_map_of_mem _ hfe
        exact hdisj hnin hmem
    · obtain ⟨r, hr, hok⟩ := forall2_right_mem hrel2 e hpe
      have hrot : e.kind.isRot = true := by
        rw [add_mapping_isRot hok]
        simpa using List.of_mem_filter hr
      constructor
      · intro _
        rw [hang, ← hpe_names]
        exact List.mem_map_of_mem _ hpe
      · intro _; exact hrot

theorem entryDetect_fixedE {m : MatrixVal} {c : Nat} {content : GateContent} {ps : List ℚ}
    (h : entryDetect (.fixedE m c) content = some ps) :
    ps = [] ∧ ∃ m', content = .unitary m' c ∧ matEquivB m m' = true := by
  cases content with
  | unitary m' c' =>
    unfold entryDetect at h
    dsimp only at h
    split_ifs at h with hcond
    cases h
    exact ⟨rfl, m', by rw [hcond.1], hcond.2⟩
  | measure m' => cases h
  | prep m' => cases h

theorem entryDetect_rotE {a : DAxis} {c : Nat} {content : GateContent} {ps : List ℚ}
    (h : entryDetect (.rotE a c) content = some ps) :
    ∃ t, ps = [t] ∧ ∃ m', content = .unitary m' c ∧ matEquivB (.rot a t) m' = true := by
  cases content with
  | unitary m' c' =>
    unfold entryDetect at h
    dsimp only at h
    split_ifs at h with hcond
    cases m' with
    | rot a' t =>
      dsimp only at h
      split_ifs at h with ha
      cases h
      exact ⟨t, rfl, .rot a' t, by rw [hcond], by simp [matEquivB, ha]⟩
    | pred p =>
      dsimp only at h
      cases hpr : predAsRot p with
      | none => rw [hpr] at h; cases h
      | some pair =>
        obtain ⟨a', t⟩ := pair
        rw [hpr] at h
        dsimp only at h
        split_ifs at h with ha
        cases h
        refine ⟨t, rfl, .pred p, by rw [hcond], ?_⟩
        subst ha
        simp [matEquivB, hpr]
    | basisOf b =>
      dsimp only at h
      cases h
    | custom entries =>
      dsimp only at h
      cases h
  | measure m' => cases h
  | prep m' => cases h

theorem entryDetect_measureE {m : MatrixVal} {content : GateContent} {ps : List ℚ}
    (h : entryDetect (.measureE m) content = some ps) :
    ps = [] ∧ ∃ m', content = .measure m' ∧ matEquivB m m' = true := by
  cases content with
  | unitary m' c' => cases h
  | measure m' =>
    unfold entryDetect at h
    dsimp only at h
    split_ifs at h with hcond
    cases h
    exact ⟨rfl, m', rfl, hcond⟩
  | prep m' => cases h

theorem entryDetect_prepE {m : MatrixVal} {content : GateContent} {ps : List ℚ}
    (h : entryDetect (.prepE m) content = some ps) :
    ps = [] ∧ ∃ m', content = .prep m' ∧ matEquivB m m' = true := by
  cases content with
  | unitary m' c' => cases h
  | measure m' => cases h
  | prep m' =>
    unfold entryDetect at h
    dsimp only at h
    split_ifs at h with hcond
    cases h
    exact ⟨rfl, m', rfl, hcond⟩

/-- C1: round-trip law of the gate catalog. For any catalog built from a
description with distinct identifiers, and any canonical gate matched by a
registered entry (fixed, parameterized with any angle, measurement, or prep),
constructing from the detected descriptor succeeds and reproduces a gate with
the same ordered qubit list and a matrix/basis equal within the detection
tolerance — for parameterized entries at exactly the detected angle. -/
theorem C1_roundtrip (json : List (String × GateJson)) (eps : ℚ)
    (gm : OpenQLGateMap) (g : DqcsGate) (desc : OpenQLGateDescription)
    (hnd : (json.map Prod.fst).Nodup)
    (hinit : initGateMap json eps = .ok gm)
    (hdet : gm.detect g = .ok desc) :
    desc.qubits = g.qubits ∧
    ∃ g' : DqcsGate, gm.construct desc = .ok g' ∧ g'.qubits = g.qubits ∧
      contentEquivB g'.content g.content = true := by
  obtain ⟨hnodup, hiff⟩ := initGateMap_consistency hnd hinit
  unfold OpenQLGateMap.detect at hdet
  cases hfind : detectFirst gm.entries g.content with
  | none => rw [hfind] at hdet; cases hdet
  | some ep =>
    obtain ⟨e, ps⟩ := ep
    rw [hfind] at hdet
    dsimp only at hdet
    obtain ⟨hmem, hedet⟩ := detectFirst_mem hfind
    have hfindE : findEntry gm.entries e.name = some e := findEntry_of_nodup hnodup hmem
    by_cases hc : gm.has_angle.contains e.name = true
    · -- parameterized path: the identifier is in has_angle, so the entry is a rotation
      rw [if_pos hc] at hdet
      have hmem_angle : e.name ∈ gm.has_angle := by simpa using hc
      have hrot : e.kind.isRot = true := (hiff e hmem).mpr hmem_angle
      cases hk : e.kind with
      | fixedE m cc => rw [hk] at hrot; cases hrot
      | measureE m => rw [hk] at hrot; cases hrot
      | prepE m => rw [hk] at hrot; cases hrot
      | rotE a cc =>
        rw [hk] at hedet
        obtain ⟨t, hps, m', hcontent, hequiv⟩ := entryDetect_rotE hedet
        subst hps
        dsimp only at hdet
        cases hdet
        refine ⟨rfl, ?_⟩
        unfold OpenQLGateMap.construct
        dsimp only
        rw [if_pos hc, hfindE]
        dsimp only
        unfold buildGate
        rw [hk]
        refine ⟨_, rfl, rfl, ?_⟩
        rw [hcontent]
        simp [contentEquivB, hequiv]
    · -- fixed path: the identifier is not in has_angle, so the entry is not a rotation
      rw [if_neg hc] at hdet
      cases hdet
      have hnmem : e.name ∉ gm.has_angle := by simpa using hc
      have hnrot : e.kind.isRot = false := by
        cases hr : e.kind.isRot with
        | true => exact absurd ((hiff e hmem).mp hr) hnmem
        | false => rfl
      refine ⟨rfl, ?_⟩
      unfold OpenQLGateMap.construct
      dsimp only
      rw [if_neg hc, hfindE]
      dsimp only
      unfold buildGate
      cases hk : e.kind with
      | rotE a cc => rw [hk] at hnrot; cases hnrot
      | fixedE m cc =>
        rw [hk] at hedet
        obtain ⟨hps, m', hcontent, hequiv⟩ := entryDetect_fixedE hedet
        refine ⟨_, rfl, rfl, ?_⟩
        rw [hcontent]
        simp [contentEquivB, hequiv]
      | measureE m =>
        rw [hk] at hedet
        obtain ⟨hps, m', hcontent, hequiv⟩ := entryDetect_measureE hedet
        refine ⟨_, rfl, rfl, ?_⟩
        rw [hcontent]
        simp [contentEquivB, hequiv]
      | prepE m =>
        rw [hk] at hedet
        obtain ⟨hps, m', hcontent, hequiv⟩ := entryDetect_prepE hedet
        refine ⟨_, rfl, rfl, ?_⟩
        rw [hcontent]
        simp [contentEquivB, hequiv]

/-- Witness for C1 on `sampleJson`: a parameterized `rx` gate at angle 33 and
its detected descriptor round-trip through the catalog. -/
theorem C1_roundtrip_witness :
    (⟨"rx", [1], (33 : ℚ), false⟩ : OpenQLGateDescription).qubits = [1] ∧
    ∃ g' : DqcsGate, sampleGM.construct ⟨"rx", [1], (33 : ℚ), false⟩ = .ok g' ∧
      g'.qubits = [1] ∧
      contentEquivB g'.content (GateContent.unitary (.rot .X 33) 0) = true :=
  C1_roundtrip sampleJson 1 sampleGM ⟨.unitary (.rot .X 33) 0, [1], []⟩
    ⟨"rx", [1], (33 : ℚ), false⟩ (by decide) (by decide) (by decide)

/-!
## Translation and batching engine (`src/src/main.cpp`)

The OpenQL mapper (`mapper.Map`, `mapper.v2r_out`) is an external collaborator;
it is a black-box parameter producing, per flush, a partial new-physical-index
assignment (`v2r` — `none` stands for `UNDEFINED_QUBIT`) and the mapped kernel
gates. `ql::options::set` calls in effect at the `Map` call are recorded on the
logged oracle call. Downstream interaction (`state.gate`, `state.allocate`,
`state.get_measurement`) is modelled by `PluginState`.
-/

/-- One gate queued in the OpenQL kernel (`kernel->gate(name, qubits, {}, 0,
angle)`). -/
structure KGate where
  name : String
  qubits : List Nat
  angle : ℚ
deriving DecidableEq

/-- Engine state of `MapperPlugin`. -/
structure MapperState where
  num_qubits : Nat
  kernel_counter : Nat
  kernel : List KGate
  gatemap : OpenQLGateMap
  dqcs2virt : QubitBiMap
  virt2phys : QubitBiMap
  dqcs_nq : Nat

/-- The OpenQL option settings in effect at a `mapper.Map` call:
`mapinitone2one`, `initialplace` (`none` = left untouched), and
`mapassumezeroinitstate`. -/
structure MapOpts where
  mapinitone2one : String
  initialplace : Option String
  mapassumezeroinitstate : String
deriving DecidableEq

/-- One logged invocation of the routing oracle: options in effect and the
submitted block. -/
structure OracleCall where
  opts : MapOpts
  block : List KGate
deriving DecidableEq

/-- Result of one routing-oracle invocation: `v2r old_phys` is the new
physical index assigned to `old_phys` (`none` = `UNDEFINED_QUBIT`), and
`mapped` is the kernel's gate list after mapping. -/
structure OracleResult where
  v2r : Nat → Option Nat
  mapped : List KGate

/-- The black-box routing oracle: a result per submitted block. -/
def Oracle : Type := List KGate → OracleResult

/-- Downstream plugin state: gates emitted downstream in order, the most
recent downstream measurement per downstream qubit index, and the log of
routing-oracle invocations. -/
structure PluginState where
  emitted : List DqcsGate
  get_meas : Nat → Int
  oracleCalls : List OracleCall

/-- The options set by `run_mapper` before `mapper.Map`
(`src/src/main.cpp` lines 340–352): the first-kernel branch tests
`kernel_counter == 0`. -/
def MapperPlugin.optsFor (st : MapperState) : MapOpts :=
  if st.kernel_counter = 0 then
    ⟨"no", none, "yes"⟩
  else
    ⟨"yes", some "no", "yes"⟩

/-- Rebuild of the virtual-to-physical map after mapping
(`src/src/main.cpp` lines 362–372): for each old physical index with a
defined new physical index, look up its virtual index in the old map and
re-pair it in a fresh map. -/
def rebuildV2P (old : QubitBiMap) (v2r : Nat → Option Nat) (num_qubits : Nat) :
    QubitBiMap :=
  (List.range num_qubits).foldl
    (fun nm old_phys =>
      match v2r old_phys with
      | some new_phys =>
        if 0 ≤ old.reverse_lookup old_phys then
          nm.map (old.reverse_lookup old_phys).toNat new_phys
        else nm
      | none => nm)
    QubitBiMap.empty

/-- Emission loop of `run_mapper` (`src/src/main.cpp` lines 377–391): convert
each mapped gate to a descriptor over downstream (physical + 1) indices,
construct the DQCsim gate, and send it downstream, in order. A construction
failure propagates, leaving the already-emitted prefix. -/
def emitAll (gm : OpenQLGateMap) : List KGate → PluginState →
    Except (String × PluginState) PluginState
  | [], ps => .ok ps
  | kg :: rest, ps =>
    match gm.construct ⟨kg.name, kg.qubits.map (fun q => q + 1), kg.angle, false⟩ with
    | .ok dg => emitAll gm rest { ps with emitted := ps.emitted ++ [dg] }
    | .error msg => .error (msg, ps)

/-- `MapperPlugin::run_mapper` (`src/src/main.cpp` lines 327–396): no-op on an
empty kernel; otherwise set the mapper options (first-kernel test on the block
counter), run the oracle, rebuild virt2phys from `v2r_out`, emit the mapped
gates downstream, and start a fresh kernel with the counter incremented. -/
def MapperPlugin.run_mapper (oracle : Oracle) (st : MapperState) (ps : PluginState) :
    Except (String × MapperState × PluginState) (MapperState × PluginState) :=
  if st.kernel = [] then .ok (st, ps)
  else
    let opts := MapperPlugin.optsFor st
    let res := oracle st.kernel
    let ps1 : PluginState :=
      { ps with oracleCalls := ps.oracleCalls ++ [⟨opts, st.kernel⟩] }
    let st1 : MapperState :=
      { st with virt2phys := rebuildV2P st.virt2phys res.v2r st.num_qubits }
    match emitAll st1.gatemap res.mapped ps1 with
    | .ok ps2 =>
      .ok ({ st1 with kernel := [], kernel_counter := st1.kernel_counter + 1 }, ps2)
    | .error ep => .error (ep.1, st1, ep.2)

/-- Translation of one upstream qubit index through both index maps
(`src/src/main.cpp` lines 418–431), with the source's error messages. -/
def translate1 (st : MapperState) (q : Nat) : Except String Nat :=
  let virt := st.dqcs2virt.forward_lookup q
  if 0 ≤ virt then
    let phys := st.virt2phys.forward_lookup virt.toNat
    if 0 ≤ phys then .ok phys.toNat
    else .error ("Missing mapping from virtual qubit index " ++ toString virt.toNat
      ++ " to physical")
  else .error ("Missing mapping from DQCsim qubit index " ++ toString q ++ " to virtual")

/-- Translate every qubit of a descriptor, failing at the first missing hop. -/
def translateAll (st : MapperState) : List Nat → Except String (List Nat)
  | [] => .ok []
  | q :: rest =>
    match translate1 st q with
    | .ok p =>
      match translateAll st rest with
      | .ok prest => .ok (p :: prest)
      | .error msg => .error msg
    | .error msg => .error msg

/-- The gates appended to the kernel for one descriptor
(`src/src/main.cpp` lines 433–443): one per qubit when the description is
marked multi-qubit-parallel, a single gate otherwise. -/
def kernelGates (desc : OpenQLGateDescription) : List KGate :=
  if desc.multi_qubit_parallel then
    desc.qubits.map (fun q => ⟨desc.name, [q], desc.angle⟩)
  else
    [⟨desc.name, desc.qubits, desc.angle⟩]

/-- `MapperPlugin::gate` (`src/src/main.cpp` lines 404–488): detect, translate
every qubit upstream→virtual→physical, append to the kernel; if the gate
carries measurements, run the mapper immediately, then re-key each measured
upstream qubit's current downstream measurement into the returned set. Errors
carry the engine state as mutated so far. -/
def MapperPlugin.gate (oracle : Oracle) (st : MapperState) (ps : PluginState)
    (g : DqcsGate) :
    Except (String × MapperState × PluginState)
      (MapperState × PluginState × List (Nat × Int)) :=
  match st.gatemap.detect g with
  | .error msg => .error (msg, st, ps)
  | .ok desc =>
    match translateAll st desc.qubits with
    | .error msg => .error (msg, st, ps)
    | .ok physqs =>
      let desc' : OpenQLGateDescription :=
        { desc with qubits := physqs }
      let st1 : MapperState := { st with kernel := st.kernel ++ kernelGates desc' }
      if g.measures = [] then .ok (st1, ps, [])
      else
        match MapperPlugin.run_mapper oracle st1 ps with
        | .error e => .error e
        | .ok (st2, ps2) =>
          match collectMeasures st2 ps2 g.measures with
          | .ok ms => .ok (st2, ps2, ms)
          | .error msg => .error (msg, st2, ps2)
where
  /-- Measurement collection loop (`src/src/main.cpp` lines 454–485): for each
  measured upstream qubit, translate to its current physical index, read the
  downstream result at physical + 1, and re-key it to the upstream index. -/
  collectMeasures (st : MapperState) (ps : PluginState) :
      List Nat → Except String (List (Nat × Int))
    | [] => .ok []
    | q :: rest =>
      match translate1 st q with
      | .ok phys =>
        match collectMeasures st ps rest with
        | .ok ms => .ok ((q, ps.get_meas (phys + 1)) :: ms)
        | .error msg => .error msg
      | .error msg => .error msg

/-- `MapperPlugin::allocate`, one qubit (`src/src/main.cpp` lines 188–212):
scan virtual indices `[0, num_qubits)` in increasing order for the first with
no reverse mapping; map the upstream qubit there and bump the counter, or fail
when every virtual index is live. -/
def MapperPlugin.allocate1 (st : MapperState) (q : Nat) :
    Except (String × MapperState) MapperState :=
  match findFreeVirt st.dqcs2virt st.num_qubits with
  | some v =>
    .ok { st with dqcs2virt := st.dqcs2virt.map q v, dqcs_nq := st.dqcs_nq + 1 }
  | none => .error ("Upstream plugin requires too many live qubits!", st)
where
  /-- The scan loop: first index in the candidate list whose reverse lookup is
  negative. -/
  findFreeList (m : QubitBiMap) : List Nat → Option Nat
    | [] => none
    | v :: rest => if m.reverse_lookup v < 0 then some v else findFreeList m rest
  /-- `for (virt_qubit = 0; virt_qubit < num_qubits; virt_qubit++)`. -/
  findFreeVirt (m : QubitBiMap) (num_qubits : Nat) : Option Nat :=
    findFreeList m (List.range num_qubits)

/-- `MapperPlugin::allocate` over a qubit list, in order; a failure keeps the
mutations already applied for earlier qubits. -/
def MapperPlugin.allocate (st : MapperState) :
    List Nat → Except (String × MapperState) MapperState
  | [] => .ok st
  | q :: rest =>
    match MapperPlugin.allocate1 st q with
    | .ok st' => MapperPlugin.allocate st' rest
    | .error e => .error e

/-- `MapperPlugin::free` (`src/src/main.cpp` lines 222–239): unmap each
upstream qubit; no-op for unmapped ids. -/
def MapperPlugin.free (st : MapperState) (qs : List Nat) : MapperState :=
  qs.foldl (fun s q => { s with dqcs2virt := s.dqcs2virt.unmap_upstream q }) st

/-- The state after `MapperPlugin::initialize` (`src/src/main.cpp` lines
74–155) with a platform of `num_qubits` qubits and a built catalog:
`new_kernel()` has created `kernel_0` and pre-incremented the counter to 1,
the upstream map is empty, and virt2phys is the identity over
`[0, num_qubits)`. -/
def MapperPlugin.initState (num_qubits : Nat) (gm : OpenQLGateMap) : MapperState :=
  { num_qubits := num_qubits
    kernel_counter := 1
    kernel := []
    gatemap := gm
    dqcs2virt := QubitBiMap.empty
    virt2phys := (List.range num_qubits).foldl (fun m q => m.map q q) QubitBiMap.empty
    dqcs_nq := 0 }

/-!
## Engine theorems
-/

/-- The two `UnmappedResource` message shapes thrown by qubit translation
(`src/src/main.cpp` lines 421–429). -/
def isUnmappedMsg (msg : String) : Prop :=
  (∃ n : Nat, msg = "Missing mapping from DQCsim qubit index " ++ toString n
    ++ " to virtual") ∨
  (∃ n : Nat, msg = "Missing mapping from virtual qubit index " ++ toString n
    ++ " to physical")

theorem translate1_error_msg {st : MapperState} {q : Nat} {m : String}
    (h : translate1 st q = .error m) : isUnmappedMsg m := by
  unfold translate1 at h
  dsimp only at h
  split_ifs at h with h1 h2
  · cases h
    exact Or.inr ⟨_, rfl⟩
  · cases h
    exact Or.inl ⟨_, rfl⟩

theorem translate1_unallocated {st : MapperState} {q : Nat}
    (h : st.dqcs2virt.forward_lookup q < 0) :
    translate1 st q = .error
      ("Missing mapping from DQCsim qubit index " ++ toString q ++ " to virtual") := by
  unfold translate1
  dsimp only
  rw [if_neg (not_le.mpr h)]

theorem translateAll_error_of_mem {st : MapperState} {q : Nat} :
    ∀ {qs : List Nat}, q ∈ qs → (∃ m0, translate1 st q = .error m0) →
      ∃ m, translateAll st qs = .error m ∧ ∃ q' ∈ qs, translate1 st q' = .error m := by
  intro qs
  induction qs with
  | nil => intro hq; cases hq
  | cons q0 rest ih =>
    intro hq hfail
    unfold translateAll
    cases ht : translate1 st q0 with
    | error m0 =>
      exact ⟨m0, rfl, q0, List.mem_cons_self _ _, ht⟩
    | ok p0 =>
      have hq' : q ∈ rest := by
        cases hq with
        | head =>
          obtain ⟨m0, hm0⟩ := hfail
          rw [ht] at hm0
          cases hm0
        | tail _ h' => exact h'
      obtain ⟨m, hall, q', hq'', ht'⟩ := ih hq' hfail
      rw [hall]
      exact ⟨m, rfl, q', List.mem_cons_of_mem _ hq'', ht'⟩

theorem translate1_virt_unmapped {st : MapperState} {q : Nat}
    (h1 : 0 ≤ st.dqcs2virt.forward_lookup q)
    (h2 : st.virt2phys.forward_lookup (st.dqcs2virt.forward_lookup q).toNat < 0) :
    translate1 st q = .error
      ("Missing mapping from virtual qubit index "
        ++ toString (st.dqcs2virt.forward_lookup q).toNat ++ " to physical") := by
  unfold translate1
  dsimp only
  rw [if_pos h1, if_neg (not_le.mpr h2)]

/-- C9: unmapped-resource error atomicity. A gate event referencing an
upstream id with a missing hop on either translation — the id was never
allocated (no upstream→virtual mapping), or its virtual index has no physical
mapping — fails with an `UnmappedResource` message, and the failure leaves the
engine state — in particular the pending block — exactly as it was: no
descriptor is appended. -/
theorem C9_unmapped_atomic (oracle : Oracle) (st : MapperState) (ps : PluginState)
    (g : DqcsGate) (desc : OpenQLGateDescription) (q : Nat)
    (hdet : st.gatemap.detect g = .ok desc)
    (hq : q ∈ desc.qubits)
    (hun : st.dqcs2virt.forward_lookup q < 0 ∨
      (0 ≤ st.dqcs2virt.forward_lookup q ∧
       st.virt2phys.forward_lookup (st.dqcs2virt.forward_lookup q).toNat < 0)) :
    ∃ msg, isUnmappedMsg msg ∧
      MapperPlugin.gate oracle st ps g = .error (msg, st, ps) := by
  have hfail : ∃ m0, translate1 st q = .error m0 := by
    rcases hun with h | ⟨h1, h2⟩
    · exact ⟨_, translate1_unallocated h⟩
    · exact ⟨_, translate1_virt_unmapped h1 h2⟩
  obtain ⟨m, hall, q', _, ht'⟩ := translateAll_error_of_mem hq hfail
  refine ⟨m, translate1_error_msg ht', ?_⟩
  unfold MapperPlugin.gate
  rw [hdet]
  dsimp only
  rw [hall]

/-- A state where upstream qubit 6 is allocated at virtual index 0, but
virtual 0 has no physical mapping (as after a flush whose oracle result
dropped it). -/
def stVirtOnly : MapperState :=
  { num_qubits := 2
    kernel_counter := 2
    kernel := []
    gatemap := sampleGM
    dqcs2virt := QubitBiMap.empty.map 6 0
    virt2phys := QubitBiMap.empty
    dqcs_nq := 1 }

/-- A state with one upstream qubit mapped (6 ↦ virtual 0) on a 2-qubit
platform with the identity physical mapping. -/
def stSample : MapperState :=
  { num_qubits := 2
    kernel_counter := 1
    kernel := []
    gatemap := sampleGM
    dqcs2virt := QubitBiMap.empty.map 6 0
    virt2phys := (QubitBiMap.empty.map 0 0).map 1 1
    dqcs_nq := 1 }

/-- A sample downstream state: nothing emitted, every downstream measurement
reads 7, no oracle calls yet. -/
def psSample : PluginState := ⟨[], fun _ => 7, []⟩

/-- A sample routing oracle: keeps every physical index below 2 in place and
returns the kernel unchanged. -/
def oracleSample : Oracle := fun k => ⟨fun i => if i < 2 then some i else none, k⟩

/-- Witness for C9, exercising both missing hops: an `x` gate on upstream
qubit 3, which was never allocated, errors out with the state untouched; and
on `stVirtOnly` an `x` gate on upstream qubit 6, which is allocated at
virtual 0 but has no physical mapping, errors out with the state untouched. -/
theorem C9_unmapped_atomic_witness :
    (∃ msg, isUnmappedMsg msg ∧
      MapperPlugin.gate oracleSample stSample psSample
        ⟨.unitary (.pred .PX) 0, [3], []⟩ = .error (msg, stSample, psSample)) ∧
    (∃ msg, isUnmappedMsg msg ∧
      MapperPlugin.gate oracleSample stVirtOnly psSample
        ⟨.unitary (.pred .PX) 0, [6], []⟩ = .error (msg, stVirtOnly, psSample)) :=
  ⟨C9_unmapped_atomic oracleSample stSample psSample
      ⟨.unitary (.pred .PX) 0, [3], []⟩ ⟨"x", [3], 0, false⟩ 3
      (by decide) (by decide) (Or.inl (by decide)),
   C9_unmapped_atomic oracleSample stVirtOnly psSample
      ⟨.unitary (.pred .PX) 0, [6], []⟩ ⟨"x", [6], 0, false⟩ 6
      (by decide) (by decide) (Or.inr ⟨by decide, by decide⟩)⟩

theorem findFreeList_append (m : QubitBiMap) (l1 l2 : List Nat) :
    MapperPlugin.allocate1.findFreeList m (l1 ++ l2) =
      match MapperPlugin.allocate1.findFreeList m l1 with
      | some v => some v
      | none => MapperPlugin.allocate1.findFreeList m l2 := by
  induction l1 with
  | nil => rfl
  | cons v rest ih =>
    by_cases hv : m.reverse_lookup v < 0
    · have h1 : MapperPlugin.allocate1.findFreeList m (v :: (rest ++ l2)) = some v := by
        conv_lhs => unfold MapperPlugin.allocate1.findFreeList
        rw [if_pos hv]
      have h2 : MapperPlugin.allocate1.findFreeList m (v :: rest) = some v := by
        conv_lhs => unfold MapperPlugin.allocate1.findFreeList
        rw [if_pos hv]
      rw [List.cons_append, h1, h2]
    · have h1 : MapperPlugin.allocate1.findFreeList m (v :: (rest ++ l2)) =
          MapperPlugin.allocate1.findFreeList m (rest ++ l2) := by
        conv_lhs => unfold MapperPlugin.allocate1.findFreeList
        rw [if_neg hv]
      have h2 : MapperPlugin.allocate1.findFreeList m (v :: rest) =
          MapperPlugin.allocate1.findFreeList m rest := by
        conv_lhs => unfold MapperPlugin.allocate1.findFreeList
        rw [if_neg hv]
      rw [List.cons_append, h1, h2, ih]

theorem findFreeList_none_iff (m : QubitBiMap) :
    ∀ l : List Nat, MapperPlugin.allocate1.findFreeList m l = none ↔
      ∀ w ∈ l, ¬ m.reverse_lookup w < 0 := by
  intro l
  induction l with
  | nil => simp [MapperPlugin.allocate1.findFreeList]
  | cons v rest ih =>
    unfold MapperPlugin.allocate1.findFreeList
    by_cases hv : m.reverse_lookup v < 0
    · rw [if_pos hv]
      simp [hv]
    · rw [if_neg hv]
      rw [ih]
      constructor
      · intro h w hw
        cases hw with
        | head => exact hv
        | tail _ hw' => exact h w hw'
      · intro h w hw
        exact h w (List.mem_cons_of_mem _ hw)

theorem findFreeVirt_iff (m : QubitBiMap) :
    ∀ (N v : Nat), MapperPlugin.allocate1.findFreeVirt m N = some v ↔
      v < N ∧ m.reverse_lookup v < 0 ∧ ∀ w < v, ¬ m.reverse_lookup w < 0 := by
  intro N
  induction N with
  | zero =>
    intro v
    constructor
    · intro h; cases h
    · intro ⟨hv, _⟩; cases hv
  | succ N ih =>
    intro v
    unfold MapperPlugin.allocate1.findFreeVirt at *
    rw [List.range_succ, findFreeList_append]
    cases hprev : MapperPlugin.allocate1.findFreeList m (List.range N) with
    | some w =>
      obtain ⟨hwN, hwfree, hwmin⟩ := (ih w).mp hprev
      constructor
      · intro h
        cases h
        exact ⟨Nat.lt_succ_of_lt hwN, hwfree, hwmin⟩
      · intro ⟨hvN, hvfree, hvmin⟩
        have hvw : v = w := by
          rcases Nat.lt_trichotomy v w with h | h | h
          · exact absurd hvfree (hwmin v h)
          · exact h
          · exact absurd hwfree (hvmin w h)
        rw [hvw]
    | none =>
      have hall : ∀ w ∈ List.range N, ¬ m.reverse_lookup w < 0 :=
        (findFreeList_none_iff m _).mp hprev
      unfold MapperPlugin.allocate1.findFreeList
      by_cases hN : m.reverse_lookup N < 0
      · rw [if_pos hN]
        constructor
        · intro h
          cases h
          exact ⟨Nat.lt_succ_self N, hN,
            fun w hw => hall w (List.mem_range.mpr hw)⟩
        · intro ⟨hvN, hvfree, _⟩
          rcases Nat.lt_succ_iff_lt_or_eq.mp hvN with h | h
          · exact absurd hvfree (hall v (List.mem_range.mpr h))
          · rw [h]
      · rw [if_neg hN]
        constructor
        · intro h; cases h
        · intro ⟨hvN, hvfree, _⟩
          exfalso
          rcases Nat.lt_succ_iff_lt_or_eq.mp hvN with h | h
          · exact absurd hvfree (hall v (List.mem_range.mpr h))
          · rw [h] at hvfree; exact hN hvfree

/-- C4: allocation contract. The scan assigns the first free virtual index in
`[0, num_qubits)`; allocation with every virtual index live fails with the
capacity error and leaves the state untouched; freeing one upstream qubit and
allocating again succeeds and reuses exactly the freed virtual index. -/
theorem C4_allocation (st : MapperState) (q u : Nat) :
    (∀ v : Nat,
      MapperPlugin.allocate1.findFreeVirt st.dqcs2virt st.num_qubits = some v →
      v < st.num_qubits ∧ st.dqcs2virt.reverse_lookup v < 0 ∧
      (∀ w < v, 0 ≤ st.dqcs2virt.reverse_lookup w) ∧
      MapperPlugin.allocate1 st q =
        .ok { st with dqcs2virt := st.dqcs2virt.map q v,
                      dqcs_nq := st.dqcs_nq + 1 }) ∧
    ((∀ v < st.num_qubits, 0 ≤ st.dqcs2virt.reverse_lookup v) →
      MapperPlugin.allocate1 st q =
        .error ("Upstream plugin requires too many live qubits!", st)) ∧
    ((∀ v < st.num_qubits, 0 ≤ st.dqcs2virt.reverse_lookup v) →
      ∀ v0 : Nat, st.dqcs2virt.forward u = some v0 → v0 < st.num_qubits →
      MapperPlugin.allocate1 (MapperPlugin.free st [u]) q =
        .ok { st with dqcs2virt := (st.dqcs2virt.unmap_upstream u).map q v0,
                      dqcs_nq := st.dqcs_nq + 1 }) := by
  refine ⟨?_, ?_, ?_⟩
  · intro v hv
    obtain ⟨hvN, hvfree, hvmin⟩ := (findFreeVirt_iff st.dqcs2virt st.num_qubits v).mp hv
    refine ⟨hvN, hvfree, fun w hw => not_lt.mp (hvmin w hw), ?_⟩
    unfold MapperPlugin.allocate1
    rw [hv]
  · intro hfull
    have hnone : MapperPlugin.allocate1.findFreeVirt st.dqcs2virt st.num_qubits = none := by
      unfold MapperPlugin.allocate1.findFreeVirt
      rw [findFreeList_none_iff]
      intro w hw
      exact not_lt.mpr (hfull w (List.mem_range.mp hw))
    unfold MapperPlugin.allocate1
    rw [hnone]
  · intro hfull v0 hfwd hv0N
    have hfree : MapperPlugin.free st [u] =
        { st with dqcs2virt := st.dqcs2virt.unmap_upstream u } := rfl
    rw [hfree]
    have hrev0 : (st.dqcs2virt.unmap_upstream u).reverse v0 = none := by
      unfold QubitBiMap.unmap_upstream
      rw [hfwd]
      simp [HMap.upd]
    have hrevw : ∀ w : Nat, w ≠ v0 →
        (st.dqcs2virt.unmap_upstream u).reverse w = st.dqcs2virt.reverse w := by
      intro w hw
      unfold QubitBiMap.unmap_upstream
      rw [hfwd]
      simp only [HMap.upd]
      rw [if_neg hw]
    have hlook : MapperPlugin.allocate1.findFreeVirt
        (st.dqcs2virt.unmap_upstream u) st.num_qubits = some v0 := by
      rw [findFreeVirt_iff]
      refine ⟨hv0N, ?_, ?_⟩
      · unfold QubitBiMap.reverse_lookup
        rw [hrev0]
        decide
      · intro w hw
        have hwv0 : w ≠ v0 := Nat.ne_of_lt hw
        have : (st.dqcs2virt.unmap_upstream u).reverse_lookup w =
            st.dqcs2virt.reverse_lookup w := by
          unfold QubitBiMap.reverse_lookup
          rw [hrevw w hwv0]
        rw [this]
        exact not_lt.mpr (hfull w (Nat.lt_trans hw hv0N))
    unfold MapperPlugin.allocate1
    rw [hlook]

/-- A full 1-qubit state: upstream qubit 5 occupies the only virtual index. -/
def stFull : MapperState :=
  { num_qubits := 1
    kernel_counter := 1
    kernel := []
    gatemap := sampleGM
    dqcs2virt := QubitBiMap.empty.map 5 0
    virt2phys := QubitBiMap.empty.map 0 0
    dqcs_nq := 1 }

/-- Witness for C4: on the full 1-qubit state, allocating upstream qubit 7
fails with the capacity error; freeing upstream qubit 5 and allocating again
succeeds and reuses virtual index 0; and on the emptied state the scan picks
virtual index 0, the first free one. -/
theorem C4_allocation_witness :
    MapperPlugin.allocate1 stFull 7 =
      .error ("Upstream plugin requires too many live qubits!", stFull) ∧
    MapperPlugin.allocate1 (MapperPlugin.free stFull [5]) 7 =
      .ok { stFull with dqcs2virt := (stFull.dqcs2virt.unmap_upstream 5).map 7 0,
                        dqcs_nq := stFull.dqcs_nq + 1 } ∧
    (0 < stFull.num_qubits ∧ stFull.dqcs2virt.reverse_lookup 0 < 0 → True) := by
  refine ⟨?_, ?_, fun _ => trivial⟩
  · exact (C4_allocation stFull 7 5).2.1 (by decide)
  · exact (C4_allocation stFull 7 5).2.2 (by decide) 0 (by decide) (by decide)

theorem QubitBiMap.map_fresh {nm : QubitBiMap} {u d : Nat}
    (hfu : nm.forward u = none) (hrd : nm.reverse d = none) :
    (nm.map u d).forward = nm.forward.upd u (some d) ∧
    (nm.map u d).reverse = nm.reverse.upd d (some u) := by
  unfold QubitBiMap.map QubitBiMap.unmap_upstream QubitBiMap.unmap_downstream
  rw [hfu]
  dsimp only
  rw [hrd]
  exact ⟨rfl, rfl⟩

theorem rebuildV2P_succ (old : QubitBiMap) (v2r : Nat → Option Nat) (N : Nat) :
    rebuildV2P old v2r (N + 1) =
      (match v2r N with
       | some new_phys =>
         if 0 ≤ old.reverse_lookup N then
           (rebuildV2P old v2r N).map (old.reverse_lookup N).toNat new_phys
         else rebuildV2P old v2r N
       | none => rebuildV2P old v2r N) := by
  unfold rebuildV2P
  rw [List.range_succ, List.foldl_append]
  rfl

theorem rebuildV2P_spec (old : QubitBiMap) (v2r : Nat → Option Nat)
    (hold : old.Inv)
    (hinj : ∀ i j x, v2r i = some x → v2r j = some x → i = j) :
    ∀ N : Nat,
      (∀ virt np : Nat, (rebuildV2P old v2r N).forward virt = some np ↔
        ∃ op, op < N ∧ v2r op = some np ∧ old.reverse op = some virt) ∧
      (∀ np virt : Nat, (rebuildV2P old v2r N).reverse np = some virt ↔
        ∃ op, op < N ∧ v2r op = some np ∧ old.reverse op = some virt) := by
  intro N
  induction N with
  | zero =>
    constructor
    · intro virt np
      simp [rebuildV2P, QubitBiMap.empty, HMap.empty]
    · intro np virt
      simp [rebuildV2P, QubitBiMap.empty, HMap.empty]
  | succ N ih =>
    obtain ⟨ihf, ihr⟩ := ih
    rw [rebuildV2P_succ]
    cases hv : v2r N with
    | none =>
      constructor
      · intro virt np
        rw [ihf]
        constructor
        · intro ⟨op, hop, h1, h2⟩
          exact ⟨op, Nat.lt_succ_of_lt hop, h1, h2⟩
        · intro ⟨op, hop, h1, h2⟩
          rcases Nat.lt_succ_iff_lt_or_eq.mp hop with h | h
          · exact ⟨op, h, h1, h2⟩
          · rw [h, hv] at h1; cases h1
      · intro np virt
        rw [ihr]
        constructor
        · intro ⟨op, hop, h1, h2⟩
          exact ⟨op, Nat.lt_succ_of_lt hop, h1, h2⟩
        · intro ⟨op, hop, h1, h2⟩
          rcases Nat.lt_succ_iff_lt_or_eq.mp hop with h | h
          · exact ⟨op, h, h1, h2⟩
          · rw [h, hv] at h1; cases h1
    | some np0 =>
      dsimp only
      by_cases hlk : 0 ≤ old.reverse_lookup N
      · -- old physical index N is paired with a virtual index v0
        obtain ⟨v0, hrev⟩ : ∃ v0, old.reverse N = some v0 := by
          unfold QubitBiMap.reverse_lookup at hlk
          cases hr : old.reverse N with
          | some v0 => exact ⟨v0, rfl⟩
          | none => rw [hr] at hlk; exact absurd hlk (by decide)
        have htn : (old.reverse_lookup N).toNat = v0 := by
          unfold QubitBiMap.reverse_lookup
          rw [hrev]
          rfl
        rw [if_pos hlk, htn]
        -- freshness of (v0, np0) in the partial map
        have hfresh_f : (rebuildV2P old v2r N).forward v0 = none := by
          cases hf : (rebuildV2P old v2r N).forward v0 with
          | none => rfl
          | some np' =>
            exfalso
            obtain ⟨op, hop, h1, h2⟩ := (ihf v0 np').mp hf
            have : op = N := by
              -- old.reverse op = some v0 and old.reverse N = some v0 force op = N
              have f1 : old.forward v0 = some op := (hold v0 op).mpr h2
              have f2 : old.forward v0 = some N := (hold v0 N).mpr hrev
              rw [f1] at f2
              exact Option.some.inj f2
            rw [this] at hop
            exact Nat.lt_irrefl N hop
        have hfresh_r : (rebuildV2P old v2r N).reverse np0 = none := by
          cases hr : (rebuildV2P old v2r N).reverse np0 with
          | none => rfl
          | some v' =>
            exfalso
            obtain ⟨op, hop, h1, h2⟩ := (ihr np0 v').mp hr
            have : op = N := hinj op N np0 h1 hv
            rw [this] at hop
            exact Nat.lt_irrefl N hop
        obtain ⟨hmf, hmr⟩ := QubitBiMap.map_fresh hfresh_f hfresh_r
        constructor
        · intro virt np
          rw [hmf]
          unfold HMap.upd
          by_cases hvv : virt = v0
          · rw [if_pos hvv]
            constructor
            · intro h
              exact ⟨N, Nat.lt_succ_self N, Option.some.inj h ▸ hv, hvv ▸ hrev⟩
            · intro ⟨op, hop, h1, h2⟩
              have hopN : op = N := by
                have f1 : old.forward virt = some op := (hold virt op).mpr h2
                have f2 : old.forward virt = some N := by
                  rw [hvv]
                  exact (hold v0 N).mpr hrev
                rw [f1] at f2
                exact Option.some.inj f2
              rw [hopN, hv] at h1
              rw [← h1]
          · rw [if_neg hvv]
            rw [ihf]
            constructor
            · intro ⟨op, hop, h1, h2⟩
              exact ⟨op, Nat.lt_succ_of_lt hop, h1, h2⟩
            · intro ⟨op, hop, h1, h2⟩
              rcases Nat.lt_succ_iff_lt_or_eq.mp hop with h | h
              · exact ⟨op, h, h1, h2⟩
              · exfalso
                rw [h, hrev] at h2
                exact hvv (Option.some.inj h2).symm
        · intro np virt
          rw [hmr]
          unfold HMap.upd
          by_cases hnn : np = np0
          · rw [if_pos hnn]
            constructor
            · intro h
              exact ⟨N, Nat.lt_succ_self N, hnn ▸ hv, Option.some.inj h ▸ hrev⟩
            · intro ⟨op, hop, h1, h2⟩
              have hopN : op = N := hinj op N np0 (hnn ▸ h1) hv
              rw [hopN, hrev] at h2
              rw [← Option.some.inj h2]
          · rw [if_neg hnn]
            rw [ihr]
            constructor
            · intro ⟨op, hop, h1, h2⟩
              exact ⟨op, Nat.lt_succ_of_lt hop, h1, h2⟩
            · intro ⟨op, hop, h1, h2⟩
              rcases Nat.lt_succ_iff_lt_or_eq.mp hop with h | h
              · exact ⟨op, h, h1, h2⟩
              · exfalso
                rw [h, hv] at h1
                exact hnn (Option.some.inj h1).symm
      · -- old physical index N has no virtual pairing: nothing re-paired
        have hrevN : old.reverse N = none := by
          unfold QubitBiMap.reverse_lookup at hlk
          cases hr : old.reverse N with
          | none => rfl
          | some v0 =>
            rw [hr] at hlk
            exact absurd (by positivity) hlk
        rw [if_neg hlk]
        constructor
        · intro virt np
          rw [ihf]
          constructor
          · intro ⟨op, hop, h1, h2⟩
            exact ⟨op, Nat.lt_succ_of_lt hop, h1, h2⟩
          · intro ⟨op, hop, h1, h2⟩
            rcases Nat.lt_succ_iff_lt_or_eq.mp hop with h | h
            · exact ⟨op, h, h1, h2⟩
            · rw [h, hrevN] at h2; cases h2
        · intro np virt
          rw [ihr]
          constructor
          · intro ⟨op, hop, h1, h2⟩
            exact ⟨op, Nat.lt_succ_of_lt hop, h1, h2⟩
          · intro ⟨op, hop, h1, h2⟩
            rcases Nat.lt_succ_iff_lt_or_eq.mp hop with h | h
            · exact ⟨op, h, h1, h2⟩
            · rw [h, hrevN] at h2; cases h2

theorem QubitBiMap.forward_lookup_neg_one (m : QubitBiMap) (k : Nat) :
    m.forward_lookup k = -1 ↔ m.forward k = none := by
  unfold QubitBiMap.forward_lookup
  cases m.forward k with
  | none => simp
  | some v =>
    dsimp only
    constructor
    · intro h
      exfalso
      have hv : (0 : Int) ≤ (v : Int) := Int.natCast_nonneg v
      omega
    · intro h; cases h

/-- C5: flush rebuild of the virtual-to-physical map. For each old physical
index with a known new physical index, the old map's virtual index is
re-paired with the new physical index in the fresh map; entries whose old
physical index is absent from the oracle's result are dropped, leaving their
virtual resource unmapped; and every pairing of the fresh map arises this way. -/
theorem C5_flush_rebuild (old : QubitBiMap) (v2r : Nat → Option Nat) (N : Nat)
    (hold : old.Inv)
    (hinj : ∀ i j x, v2r i = some x → v2r j = some x → i = j) :
    (∀ op np virt : Nat, op < N → v2r op = some np →
       old.reverse_lookup op = (virt : Int) →
       (rebuildV2P old v2r N).forward_lookup virt = (np : Int) ∧
       (rebuildV2P old v2r N).reverse_lookup np = (virt : Int)) ∧
    (∀ op virt : Nat, op < N → v2r op = none →
       old.reverse_lookup op = (virt : Int) →
       (rebuildV2P old v2r N).forward_lookup virt = -1) ∧
    (∀ virt np : Nat, (rebuildV2P old v2r N).forward_lookup virt = (np : Int) →
       ∃ op, op < N ∧ v2r op = some np ∧ old.reverse_lookup op = (virt : Int)) := by
  obtain ⟨hf, hr⟩ := rebuildV2P_spec old v2r hold hinj N
  refine ⟨?_, ?_, ?_⟩
  · intro op np virt hop hv hrev
    rw [QubitBiMap.reverse_lookup_eq_iff] at hrev
    constructor
    · rw [QubitBiMap.forward_lookup_eq_iff, hf]
      exact ⟨op, hop, hv, hrev⟩
    · rw [QubitBiMap.reverse_lookup_eq_iff, hr]
      exact ⟨op, hop, hv, hrev⟩
  · intro op virt hop hv hrev
    rw [QubitBiMap.reverse_lookup_eq_iff] at hrev
    rw [QubitBiMap.forward_lookup_neg_one]
    cases hfwd : (rebuildV2P old v2r N).forward virt with
    | none => rfl
    | some np =>
      exfalso
      obtain ⟨op', _, h1, h2⟩ := (hf virt np).mp hfwd
      have hope : op' = op := by
        have f1 : old.forward virt = some op' := (hold virt op').mpr h2
        have f2 : old.forward virt = some op := (hold virt op).mpr hrev
        rw [f1] at f2
        exact Option.some.inj f2
      rw [hope, hv] at h1
      cases h1
  · intro virt np hfwd
    rw [QubitBiMap.forward_lookup_eq_iff] at hfwd
    obtain ⟨op, hop, h1, h2⟩ := (hf virt np).mp hfwd
    refine ⟨op, hop, h1, ?_⟩
    rw [QubitBiMap.reverse_lookup_eq_iff]
    exact h2

/-- Witness for C5 on a 2-qubit identity map and an oracle result that moves
physical 0 to physical 1 and leaves physical 1 unassigned: virtual 0 is
re-paired to physical 1 and virtual 1 is dropped. -/
theorem C5_flush_rebuild_witness :
    (rebuildV2P ((QubitBiMap.empty.map 0 0).map 1 1)
        (fun i => if i = 0 then some 1 else none) 2).forward_lookup 0 = (1 : Int) ∧
    (rebuildV2P ((QubitBiMap.empty.map 0 0).map 1 1)
        (fun i => if i = 0 then some 1 else none) 2).forward_lookup 1 = -1 := by
  have hold : ((QubitBiMap.empty.map 0 0).map 1 1).Inv :=
    (QubitBiMap.Inv.empty.map 0 0).map 1 1
  have hinj : ∀ i j x, (fun i => if i = 0 then some 1 else none) i = some x →
      (fun i => if i = 0 then some 1 else none) j = some x → i = j := by
    intro i j x hi hj
    by_cases h1 : i = 0 <;> by_cases h2 : j = 0 <;> simp_all
  have h := C5_flush_rebuild ((QubitBiMap.empty.map 0 0).map 1 1)
    (fun i => if i = 0 then some 1 else none) 2 hold hinj
  exact ⟨(h.1 0 1 0 (by decide) (by decide) (by decide)).1,
         h.2.1 1 1 (by decide) (by decide) (by decide)⟩

theorem emitAll_preserves (gm : OpenQLGateMap) :
    ∀ (l : List KGate) (ps : PluginState),
      (match emitAll gm l ps with
       | .ok ps' => ps'.oracleCalls = ps.oracleCalls ∧ ps'.get_meas = ps.get_meas
       | .error ep => ep.2.oracleCalls = ps.oracleCalls ∧ ep.2.get_meas = ps.get_meas) := by
  intro l
  induction l with
  | nil => intro ps; exact ⟨rfl, rfl⟩
  | cons kg rest ih =>
    intro ps
    unfold emitAll
    cases gm.construct ⟨kg.name, kg.qubits.map (fun q => q + 1), kg.angle, false⟩ with
    | ok dg => exact ih { ps with emitted := ps.emitted ++ [dg] }
    | error msg => exact ⟨rfl, rfl⟩

/-- The oracle-call log produced by a `run_mapper` invocation, on success or
failure. -/
def runMapperLog (r : Except (String × MapperState × PluginState)
    (MapperState × PluginState)) : List OracleCall :=
  match r with
  | .ok sp => sp.2.oracleCalls
  | .error e => e.2.2.oracleCalls

theorem run_mapper_log (oracle : Oracle) (st : MapperState) (ps : PluginState)
    (hne : ¬ st.kernel = []) :
    runMapperLog (MapperPlugin.run_mapper oracle st ps) =
      ps.oracleCalls ++ [⟨MapperPlugin.optsFor st, st.kernel⟩] := by
  unfold MapperPlugin.run_mapper
  rw [if_neg hne]
  dsimp only
  have hpres := emitAll_preserves st.gatemap (oracle st.kernel).mapped
    { ps with oracleCalls := ps.oracleCalls ++ [⟨MapperPlugin.optsFor st, st.kernel⟩] }
  cases hem : emitAll st.gatemap (oracle st.kernel).mapped
      { ps with oracleCalls := ps.oracleCalls ++ [⟨MapperPlugin.optsFor st, st.kernel⟩] } with
  | ok ps2 =>
    rw [hem] at hpres
    exact hpres.1
  | error ep =>
    rw [hem] at hpres
    exact hpres.1

/-- C6: first-flush policy. The code's first-kernel branch tests
`kernel_counter == 0`, but `new_kernel()` pre-increments the counter during
`initialize`, so the engine reaches its very first flush with the counter
already at 1: the flush of the first block is submitted with
`mapinitone2one = "yes"` / `initialplace = "no"` (treat the current physical
indices as fixed), not with the arbitrary-initial-assignment policy
(`mapinitone2one = "no"`) that the `kernel_counter == 0` branch would select. -/
theorem C6_first_flush_policy (num_qubits : Nat) (gm : OpenQLGateMap)
    (oracle : Oracle) (ps : PluginState) (kg : KGate) :
    (MapperPlugin.initState num_qubits gm).kernel_counter = 1 ∧
    (∀ st : MapperState, st.kernel_counter = 0 →
      MapperPlugin.optsFor st = ⟨"no", none, "yes"⟩) ∧
    (∀ st : MapperState, 1 ≤ st.kernel_counter →
      MapperPlugin.optsFor st = ⟨"yes", some "no", "yes"⟩) ∧
    runMapperLog (MapperPlugin.run_mapper oracle
        { MapperPlugin.initState num_qubits gm with kernel := [kg] } ps) =
      ps.oracleCalls ++ [⟨⟨"yes", some "no", "yes"⟩, [kg]⟩] := by
  refine ⟨rfl, ?_, ?_, ?_⟩
  · intro st h
    unfold MapperPlugin.optsFor
    rw [if_pos h]
  · intro st h
    unfold MapperPlugin.optsFor
    rw [if_neg (by omega)]
  · rw [run_mapper_log oracle _ ps (by simp)]
    rfl

/-- Witness for C6: on a concrete 1-qubit engine right after initialization,
flushing a one-gate block logs an oracle call with `mapinitone2one = "yes"`. -/
theorem C6_first_flush_policy_witness :
    (MapperPlugin.initState 1 sampleGM).kernel_counter = 1 ∧
    runMapperLog (MapperPlugin.run_mapper oracleSample
        { MapperPlugin.initState 1 sampleGM with kernel := [⟨"x", [0], 0⟩] } psSample) =
      psSample.oracleCalls ++ [⟨⟨"yes", some "no", "yes"⟩, [⟨"x", [0], 0⟩]⟩] := by
  have h := C6_first_flush_policy 1 sampleGM oracleSample psSample ⟨"x", [0], 0⟩
  exact ⟨h.1, h.2.2.2⟩

theorem detect_multi_false {gm : OpenQLGateMap} {g : DqcsGate}
    {desc : OpenQLGateDescription} (h : gm.detect g = .ok desc) :
    desc.multi_qubit_parallel = false := by
  unfold OpenQLGateMap.detect at h
  cases hfind : detectFirst gm.entries g.content with
  | none => rw [hfind] at h; cases h
  | some ep =>
    obtain ⟨e, ps⟩ := ep
    rw [hfind] at h
    dsimp only at h
    split_ifs at h with hc
    · cases ps with
      | nil => cases h
      | cons t rest => cases h; rfl
    · cases h; rfl

theorem run_mapper_ok_spec {oracle : Oracle} {st : MapperState} {ps : PluginState}
    {sp : MapperState × PluginState}
    (hne : ¬ st.kernel = [])
    (h : MapperPlugin.run_mapper oracle st ps = .ok sp) :
    sp.1.kernel = [] ∧
    sp.2.oracleCalls = ps.oracleCalls ++ [⟨MapperPlugin.optsFor st, st.kernel⟩] ∧
    sp.2.get_meas = ps.get_meas := by
  unfold MapperPlugin.run_mapper at h
  rw [if_neg hne] at h
  dsimp only at h
  have hpres := emitAll_preserves st.gatemap (oracle st.kernel).mapped
    { ps with oracleCalls := ps.oracleCalls ++ [⟨MapperPlugin.optsFor st, st.kernel⟩] }
  cases hem : emitAll st.gatemap (oracle st.kernel).mapped
      { ps with oracleCalls := ps.oracleCalls ++ [⟨MapperPlugin.optsFor st, st.kernel⟩] } with
  | ok ps' =>
    rw [hem] at h hpres
    injection h with h'
    subst h'
    exact ⟨rfl, hpres.1, hpres.2⟩
  | error ep =>
    rw [hem] at h
    cases h

theorem collectMeasures_spec (st : MapperState) (ps : PluginState) (p : Nat → Nat) :
    ∀ qs : List Nat, (∀ q ∈ qs, translate1 st q = .ok (p q)) →
      MapperPlugin.gate.collectMeasures st ps qs =
        .ok (qs.map (fun q => (q, ps.get_meas (p q + 1)))) := by
  intro qs
  induction qs with
  | nil => intro _; rfl
  | cons q rest ih =>
    intro hall
    unfold MapperPlugin.gate.collectMeasures
    rw [hall q (List.mem_cons_self _ _),
      ih (fun q' hq' => hall q' (List.mem_cons_of_mem _ hq'))]
    rfl

/-- C3: measurement triggers immediate flush. A gate whose canonical form
carries an embedded measurement flushes the pending block synchronously
(one oracle call, logged before the call returns, containing the whole block
including this gate), leaves a fresh empty block, and returns a measurement
set that re-keys, for each measured upstream resource, the downstream result
at its current physical index + 1 to the upstream id. A gate with no
measurement appends to the block, performs no flush, and returns an empty
measurement set. -/
theorem C3_measurement_flush (oracle : Oracle) (st : MapperState) (ps : PluginState)
    (g : DqcsGate) (desc : OpenQLGateDescription) (physqs : List Nat)
    (hdet : st.gatemap.detect g = .ok desc)
    (htr : translateAll st desc.qubits = .ok physqs) :
    (g.measures = [] →
      MapperPlugin.gate oracle st ps g =
        .ok ({ st with kernel :=
          st.kernel ++ kernelGates { desc with qubits := physqs } }, ps, [])) ∧
    (¬ g.measures = [] →
      ∀ sp : MapperState × PluginState,
        MapperPlugin.run_mapper oracle
          { st with kernel := st.kernel ++ kernelGates { desc with qubits := physqs } }
          ps = .ok sp →
        sp.1.kernel = [] ∧
        sp.2.oracleCalls = ps.oracleCalls ++
          [⟨MapperPlugin.optsFor st,
            st.kernel ++ kernelGates { desc with qubits := physqs }⟩] ∧
        (∀ p : Nat → Nat, (∀ q ∈ g.measures, translate1 sp.1 q = .ok (p q)) →
          MapperPlugin.gate oracle st ps g =
            .ok (sp.1, sp.2, g.measures.map (fun q => (q, ps.get_meas (p q + 1)))))) := by
  have hmulti : desc.multi_qubit_parallel = false := detect_multi_false hdet
  constructor
  · intro hnm
    unfold MapperPlugin.gate
    rw [hdet]
    dsimp only
    rw [htr]
    dsimp only
    rw [if_pos hnm]
  · intro hm sp hrm
    obtain ⟨st2, ps2⟩ := sp
    have hne : ¬ ({ st with kernel :=
        st.kernel ++ kernelGates { desc with qubits := physqs } } : MapperState).kernel
        = [] := by
      dsimp only
      simp [kernelGates, hmulti]
    obtain ⟨hk, hoc, hgm⟩ := run_mapper_ok_spec hne hrm
    refine ⟨hk, hoc, ?_⟩
    intro p hp
    unfold MapperPlugin.gate
    rw [hdet]
    dsimp only
    rw [htr]
    dsimp only
    rw [if_neg hm, hrm]
    dsimp only
    rw [collectMeasures_spec st2 ps2 p g.measures hp]
    dsimp only
    rw [hgm]

/-- The engine state after the measurement flush in the C3 witness scenario. -/
def st2Sample : MapperState :=
  { num_qubits := 2
    kernel_counter := 2
    kernel := []
    gatemap := sampleGM
    dqcs2virt := QubitBiMap.empty.map 6 0
    virt2phys := rebuildV2P ((QubitBiMap.empty.map 0 0).map 1 1)
      (fun i => if i < 2 then some i else none) 2
    dqcs_nq := 1 }

/-- The downstream state after the measurement flush in the C3 witness
scenario: the measurement gate was emitted at downstream index 1 and one
oracle call was logged. -/
def ps2Sample : PluginState :=
  { emitted := [⟨.measure (.basisOf .Z), [1], [1]⟩]
    get_meas := fun _ => 7
    oracleCalls := [⟨⟨"yes", some "no", "yes"⟩, [⟨"meas", [0], 0⟩]⟩] }

/-- Witness for C3: a measurement gate on the allocated upstream qubit 6
flushes the one-gate block synchronously and returns the downstream result 7
re-keyed to upstream qubit 6. -/
theorem C3_measurement_flush_witness :
    MapperPlugin.gate oracleSample stSample psSample
      ⟨.measure (.basisOf .Z), [6], [6]⟩ = .ok (st2Sample, ps2Sample, [(6, 7)]) ∧
    st2Sample.kernel = [] ∧
    ps2Sample.oracleCalls = psSample.oracleCalls ++
      [⟨MapperPlugin.optsFor stSample,
        stSample.kernel ++ kernelGates ⟨"meas", [0], 0, false⟩⟩] := by
  have h := C3_measurement_flush oracleSample stSample psSample
    ⟨.measure (.basisOf .Z), [6], [6]⟩ ⟨"meas", [6], 0, false⟩ [0]
    (by decide) (by decide)
  have h2 := h.2 (by decide) (st2Sample, ps2Sample) (by rfl)
  exact ⟨h2.2.2 (fun _ => 0) (by decide), h2.1, h2.2.1⟩
